import Mathlib

/-!
# MarketingDashboard — verification of the normalization + analytics core

Shallow embedding of `config/settings.py`, `core/data_loader.py` and
`core/analyzer.py`.  Tables are modelled column-major as association lists
from column names to cell lists; pandas `NaN` / `NaT` cells are `Cell.null`,
numeric cells are exact rationals, date cells are integer day numbers.
Python floats that may be NaN are modelled as `Option ℚ` (with `none` = NaN);
real-valued statistics (square roots, the error function) live in `ℝ`.
-/

namespace MarketingDashboard

/-- A raw table cell: a number, a date (day count), free text, or a missing
value (pandas `NaN`/`NaT`/`None`). String cells are cells whose text is
neither numeric nor date-like, so `pd.to_numeric`/`pd.to_datetime` with
`errors="coerce"` fail on them; numeric/date-like raw text is modelled
directly as `num`/`date`. -/
inductive Cell where
  | num  (q : ℚ)
  | date (d : ℤ)
  | str  (s : String)
  | null
deriving DecidableEq, Repr

/-- A raw pandas DataFrame, column-major: column name paired with its cells. -/
abbrev RawTable := List (String × List Cell)

/-- `COLUMN_MAPPING` from `config/settings.py`: canonical field name to its
lower-cased alias list, in source order. -/
def COLUMN_MAPPING : List (String × List String) :=
  [ ("Date", ["date", "tarih", "day", "gun"]),
    ("Spend", ["amount spent", "cost", "total spent", "spend", "harcama", "tutar"]),
    ("Clicks", ["clicks", "link clicks", "tiklama", "tiklamalar", "click"]),
    ("Impressions", ["impressions", "gosterim", "goruntulenme", "impression"]),
    ("Reach", ["reach", "erisim", "unique reach", "ulasim"]),
    ("Conversions", ["conversions", "donusumler", "purchases", "satis", "leads", "results"]),
    ("Campaign", ["campaign name", "kampanya adi", "campaign", "kampanya"]),
    ("AdName", ["ad name", "reklam adi", "ad", "creative name", "reklam"]),
    ("Platform", ["platform", "source", "kaynak"]),
    ("Country", ["country", "region", "ulke", "bolge", "location"]),
    ("Age", ["age", "yas", "age range"]),
    ("Gender", ["gender", "cinsiyet"]),
    ("Device", ["device", "cihaz", "device platform"]),
    ("Placement", ["placement", "yerlesim", "platform position"]),
    ("Sentiment", ["sentiment", "sentiment score", "duygu", "puan"]) ]

/-- `CANONICAL_COLUMNS = list(COLUMN_MAPPING.keys())` (`data_loader.py`). -/
def CANONICAL_COLUMNS : List String := COLUMN_MAPPING.map Prod.fst

/-- `METRIC_COLUMNS` (`data_loader.py`): numeric columns, defaulted to 0. -/
def METRIC_COLUMNS : List String := ["Spend", "Clicks", "Impressions", "Reach", "Conversions"]

/-- ASCII lower-casing of one character (Python `str.lower` on ASCII input). -/
def lowerChar (c : Char) : Char :=
  if 'A' ≤ c ∧ c ≤ 'Z' then Char.ofNat (c.toNat + 32) else c

/-- ASCII lower-casing of a string (Python `str.lower` restricted to ASCII,
which covers every alias in `COLUMN_MAPPING`). -/
def lowerStr (s : String) : String := ⟨s.data.map lowerChar⟩

/-- The column names of a raw table, in order. -/
def colNames (t : RawTable) : List String := t.map Prod.fst

/-- The Python dict `{c.lower(): c for c in df.columns}` from
`_standardize_columns`: looking up a lower-cased key returns the *last*
column whose lower-casing equals it (later dict assignments overwrite). -/
def lowerToOriginal (cols : List String) (key : String) : Option String :=
  (cols.filter (fun c => lowerStr c = key)).getLast?

/-- The candidate scan of `_standardize_columns`: return the original column
name matched by the first alias (in candidate order) present in the
lower-cased column dict. -/
def findAliasMatch (cols : List String) : List String → Option String
  | [] => none
  | cand :: rest =>
    match lowerToOriginal cols (lowerStr cand) with
    | some orig => some orig
    | none => findAliasMatch cols rest

/-- Python dict assignment `m[k] = v`: overwrite if the key exists, else
append (insertion order preserved). -/
def dictInsert (m : List (String × String)) (k v : String) : List (String × String) :=
  if m.any (fun p => p.1 = k) then
    m.map (fun p => if p.1 = k then (k, v) else p)
  else m ++ [(k, v)]

/-- One step of building the `rename_map`: skip a canonical field whose
exact name is already a column, otherwise record `found_original ↦
canonical` for the first alias match (if any). -/
def brmStep (cols : List String) (m : List (String × String))
    (cm : String × List String) : List (String × String) :=
  if cm.1 ∈ cols then m
  else
    match findAliasMatch cols cm.2 with
    | some orig => dictInsert m orig cm.1
    | none => m

/-- The `rename_map` built by `_standardize_columns`, processing the
canonical fields in mapping order. -/
def buildRenameMap (cols : List String) : List (String × String) :=
  COLUMN_MAPPING.foldl (brmStep cols) []

/-- `df.rename(columns=rename_map)` applied to one column name. -/
def applyRename (m : List (String × String)) (nm : String) : String :=
  match m.find? (fun p => p.1 = nm) with
  | some p => p.2
  | none => nm

/-- Row count of a table (length of its first column; the embedding keeps
all columns the same length). -/
def nrows (t : RawTable) : ℕ :=
  match t with
  | [] => 0
  | c :: _ => c.2.length

/-- Default cell for a synthesized canonical column: `0.0` for metric
columns, `pd.NA` otherwise (`_standardize_columns`, step 2). -/
def defaultCell (c : String) : Cell :=
  if c ∈ METRIC_COLUMNS then Cell.num 0 else Cell.null

/-- Step 1 of `_standardize_columns`: rename alias-matched columns to their
canonical names. -/
def renameColumns (t : RawTable) : RawTable :=
  let m := buildRenameMap (colNames t)
  t.map (fun col => (applyRename m col.1, col.2))

/-- One step of default-filling: append the canonical column with its
default value unless it already exists. -/
def amcStep (acc : RawTable) (c : String) : RawTable :=
  if c ∈ colNames acc then acc
  else acc ++ [(c, List.replicate (nrows acc) (defaultCell c))]

/-- Step 2 of `_standardize_columns`: append every still-missing canonical
column filled with its default value. -/
def addMissingCanonicals (t : RawTable) : RawTable :=
  CANONICAL_COLUMNS.foldl amcStep t

/-- Column reconciliation (steps 1 and 2 of `_standardize_columns`,
`data_loader.py` lines 95–126). -/
def reconcileColumns (t : RawTable) : RawTable :=
  addMissingCanonicals (renameColumns t)

/-- `pd.to_datetime(cell, errors="coerce")`: only date-like cells parse. -/
def parseDate : Cell → Option ℤ
  | Cell.date d => some d
  | _ => none

/-- `pd.to_numeric(cell, errors="coerce")`: only numeric cells parse. -/
def parseNum : Cell → Option ℚ
  | Cell.num q => some q
  | _ => none

/-- `pd.to_numeric(col, errors="coerce").fillna(0.0)` on one cell. -/
def coerceMetric (c : Cell) : Cell :=
  match parseNum c with
  | some q => Cell.num q
  | none => Cell.num 0

/-- Keep the cells whose mask entry is `true` (row filtering). -/
def filterMask (mask : List Bool) (xs : List Cell) : List Cell :=
  ((mask.zip xs).filter (fun p => p.1)).map Prod.snd

/-- `df[name]`: the cells of the (first) column called `name`. -/
def getColCells (t : RawTable) (nm : String) : Option (List Cell) :=
  (t.find? (fun c => c.1 = nm)).map Prod.snd

/-- `_clean_types_and_values`, `data_loader.py` lines 136–148: parse the
`Date` column and drop every row whose date fails to parse (when the column
is missing, add an all-`NaT` column instead), then coerce every metric
column to numbers with unparseable entries replaced by `0.0`.  The
`Platform`/`Country`/text-strip/`Sentiment` steps of the source act only on
other dimensional columns and are outside every claim; they neither add nor
remove rows or columns relevant here. -/
def cleanTypesAndValues (t : RawTable) : RawTable :=
  let t1 :=
    match getColCells t "Date" with
    | none => t ++ [("Date", List.replicate (nrows t) Cell.null)]
    | some dcells =>
      let mask := (dcells.map parseDate).map Option.isSome
      t.map (fun (col : String × List Cell) =>
        (col.1,
          if col.1 = "Date" then ((dcells.map parseDate).filterMap id).map Cell.date
          else filterMask mask col.2))
  t1.map (fun (col : String × List Cell) =>
    (col.1, if col.1 ∈ METRIC_COLUMNS then col.2.map coerceMetric else col.2))

/-- `_standardize_columns` (`data_loader.py` lines 87–131): reconcile the
columns, then clean types and values. -/
def standardizeColumns (t : RawTable) : RawTable :=
  cleanTypesAndValues (reconcileColumns t)

/-- The fatal errors of `DataLoader.load_data`: `FileNotFoundError` when no
input file is discovered, `ValueError` when files exist but none yields
data. -/
inductive LoadError where
  | inputNotFound
  | noUsableData
deriving DecidableEq, Repr

/-- `df.empty`: no columns, or every column has zero rows. -/
def emptyTable (t : RawTable) : Bool := t.all (fun c => c.2.isEmpty)

/-- `df["SourceFile"] = os.path.basename(path)` (`load_data`). -/
def addSourceFile (nm : String) (t : RawTable) : RawTable :=
  t ++ [("SourceFile", List.replicate (nrows t) (Cell.str nm))]

/-- `pd.concat(frames, ignore_index=True)`: union of columns in order of
first appearance; a frame lacking a column contributes `NaN` rows for it. -/
def concatTables (ts : List RawTable) : RawTable :=
  let names := (ts.map colNames).flatten.dedup
  names.map (fun nm =>
    (nm, (ts.map (fun t =>
      match getColCells t nm with
      | some cs => cs
      | none => List.replicate (nrows t) Cell.null)).flatten))

/-- `DataLoader.load_data` (`data_loader.py` lines 33–62).  A source is the
file's base name paired with the outcome of `_read_single_file`: `none`
when the file failed to parse (skipped with a logged warning).  No files at
all raises `FileNotFoundError`; files present but no frame with data raises
`ValueError`; otherwise the surviving frames are tagged, concatenated and
standardized. -/
def loadData (sources : List (String × Option RawTable)) : Except LoadError RawTable :=
  if sources.isEmpty then Except.error LoadError.inputNotFound
  else
    let frames := sources.filterMap (fun s =>
      match s.2 with
      | some t => if emptyTable t then none else some (addSourceFile s.1 t)
      | none => none)
    if frames.isEmpty then Except.error LoadError.noUsableData
    else Except.ok (standardizeColumns (concatTables frames))

/-!
## Analyzer model (`core/analyzer.py`)

A canonical row after normalization: metric fields are numbers (never null
after `_clean_types_and_values`), dimensional fields are optional (`none` =
pandas `NaN`).  The column-presence checks of the Analyzer (`"Age" in
df.columns`, …) are modelled by explicit flags on the frame.
-/

structure Row where
  date : Option ℤ
  spend : ℚ
  clicks : ℚ
  impressions : ℚ
  conversions : ℚ
  campaign : Option String
  adName : Option String
  platform : Option String
  country : Option String
  age : Option String
  gender : Option String
  device : Option String
  placement : Option String
  sentiment : Option ℚ
deriving DecidableEq, Repr

/-- The Analyzer's DataFrame: canonical rows plus the presence flags pandas
column-membership tests observe.  Metric columns always exist (the loader
synthesizes them; `df.get(col, 0)` in `_prepare_base_metrics` would default
them to 0 otherwise). -/
structure Frame where
  rows : List Row
  hasDate : Bool
  hasCampaign : Bool
  hasAdName : Bool
  hasPlatform : Bool
  hasCountry : Bool
  hasAge : Bool
  hasGender : Bool
  hasDevice : Bool
  hasPlacement : Bool
  hasSentiment : Bool
deriving DecidableEq, Repr

/-- `np.where(den > 0, num / den, np.nan)` on one entry: the single
null-on-zero-denominator combinator of the Analyzer. -/
def safeDiv (num den : ℚ) : Option ℚ :=
  if 0 < den then some (num / den) else none

/-- A canonical row extended with the derived columns added once at
construction by `_prepare_base_metrics` (`analyzer.py` lines 52–54). -/
structure DRow where
  toRow : Row
  cpc : Option ℚ
  ctr : Option ℚ
  cvr : Option ℚ
deriving DecidableEq, Repr

/-- `_prepare_base_metrics` on one row: CPC = Spend/Clicks, CTR =
Clicks/Impressions, CVR = Conversions/Clicks, each `NaN` unless its
denominator is positive.  (The numeric re-coercion and date re-parse of the
source are the identity on canonical rows.) -/
def prepareBaseMetrics (r : Row) : DRow :=
  { toRow := r,
    cpc := safeDiv r.spend r.clicks,
    ctr := safeDiv r.clicks r.impressions,
    cvr := safeDiv r.conversions r.clicks }

/-- Grouped metric sums (`groupby(...).agg({"Spend": "sum", ...})`). -/
structure Agg where
  spend : ℚ
  clicks : ℚ
  impressions : ℚ
  conversions : ℚ
deriving DecidableEq, Repr

/-- Sum of a metric over a list of rows. -/
def sumBy (rs : List Row) (f : Row → ℚ) : ℚ := (rs.map f).sum

/-- The four metric sums over a list of rows. -/
def aggOf (rs : List Row) : Agg :=
  ⟨sumBy rs (·.spend), sumBy rs (·.clicks),
   sumBy rs (·.impressions), sumBy rs (·.conversions)⟩

/-- `df.groupby(key).agg(...)`: rows whose key is `NaN` are dropped, the
distinct keys are listed (sorted by `le`, as pandas sorts group keys), and
each key is paired with the metric sums of its rows. -/
def groupAgg {κ : Type} [DecidableEq κ] (le : κ → κ → Prop) [DecidableRel le]
    (k : Row → Option κ) (rs : List Row) : List (κ × Agg) :=
  (((rs.filterMap k).dedup).insertionSort le).map
    (fun c => (c, aggOf (rs.filter (fun r => k r = some c))))

/-- Lexicographic comparison used for two-level pandas group keys. -/
def lexLe {α β : Type} [LT α] [DecidableEq α] [LE β] (a b : α × β) : Prop :=
  a.1 < b.1 ∨ (a.1 = b.1 ∧ a.2 ≤ b.2)

instance {α β : Type} [LT α] [DecidableEq α] [LE β]
    [DecidableRel (α := α) (· < ·)] [DecidableRel (α := β) (· ≤ ·)] :
    DecidableRel (lexLe (α := α) (β := β)) := fun a b => by
  unfold lexLe; infer_instance

/-- One output row of `get_daily_trends`: the group key (`Date`, plus
`Platform` when that column exists), the metric sums, and the recomputed
grouped ratios. -/
structure TrendRow where
  date : ℤ
  platform : Option String
  agg : Agg
  cpc : Option ℚ
  ctr : Option ℚ
  cvr : Option ℚ
deriving DecidableEq, Repr

/-- Attach the grouped CPC/CTR/CVR of `get_daily_trends` to a group. -/
def mkTrendRow (d : ℤ) (p : Option String) (a : Agg) : TrendRow :=
  ⟨d, p, a,
   safeDiv a.spend a.clicks,
   safeDiv a.clicks a.impressions,
   safeDiv a.conversions a.clicks⟩

/-- `get_daily_trends` (`analyzer.py` lines 141–158): empty when the `Date`
column is missing or all-`NaT`; otherwise group by `Date` (and `Platform`
when present), sum the metrics and recompute CPC/CTR/CVR per group. -/
def getDailyTrends (f : Frame) : List TrendRow :=
  if ¬ (f.hasDate = true) ∨ f.rows.all (fun r => r.date = none) then []
  else if f.hasPlatform then
    (groupAgg (lexLe (α := ℤ) (β := String))
      (fun r =>
        match r.date, r.platform with
        | some d, some p => some (d, p)
        | _, _ => none) f.rows).map
      (fun cp => mkTrendRow cp.1.1 (some cp.1.2) cp.2)
  else
    (groupAgg (κ := ℤ) (· ≤ ·) (fun r => r.date) f.rows).map
      (fun cp => mkTrendRow cp.1 none cp.2)

/-- Lexicographic order on `String × String` group keys. -/
def lexLePair (a b : String × String) : Prop :=
  a.1 < b.1 ∨ (a.1 = b.1 ∧ a.2 ≤ b.2)

instance : DecidableRel lexLePair := fun a b => by
  unfold lexLePair; infer_instance

/-- Lexicographic order on `String × String × String` group keys. -/
def lexLe3 (a b : String × String × String) : Prop :=
  a.1 < b.1 ∨ (a.1 = b.1 ∧ lexLePair a.2 b.2)

instance : DecidableRel lexLe3 := fun a b => by
  unfold lexLe3; infer_instance

/-- One output row of `analyze_platform_efficiency`. -/
structure PlatRow where
  platform : String
  agg : Agg
  ctr : Option ℚ
  cvr : Option ℚ
  cpc : Option ℚ
  cpm : Option ℚ
deriving DecidableEq, Repr

/-- `analyze_platform_efficiency` (`analyzer.py` lines 169–204): group by
`Platform`, sum metrics, recompute CTR/CVR/CPC and CPM =
Spend/(Impressions/1000), each `NaN` on a non-positive denominator. -/
def analyzePlatformEfficiency (f : Frame) : List PlatRow :=
  if ¬ (f.hasPlatform = true) then []
  else
    (groupAgg (κ := String) (· ≤ ·) (fun r => r.platform) f.rows).map
      (fun cp =>
        ⟨cp.1, cp.2,
         safeDiv cp.2.clicks cp.2.impressions,
         safeDiv cp.2.conversions cp.2.clicks,
         safeDiv cp.2.spend cp.2.clicks,
         if 0 < cp.2.impressions then some (cp.2.spend / (cp.2.impressions / 1000)) else none⟩)

/-- One output row of `geo_performance`. -/
structure GeoRow where
  country : String
  agg : Agg
  cpc : Option ℚ
  ctr : Option ℚ
  cvr : Option ℚ
deriving DecidableEq, Repr

/-- `geo_performance` (`analyzer.py` lines 385–396). -/
def geoPerformance (f : Frame) : List GeoRow :=
  if ¬ (f.hasCountry = true) then []
  else
    (groupAgg (κ := String) (· ≤ ·) (fun r => r.country) f.rows).map
      (fun cp =>
        ⟨cp.1, cp.2,
         safeDiv cp.2.spend cp.2.clicks,
         safeDiv cp.2.clicks cp.2.impressions,
         safeDiv cp.2.conversions cp.2.clicks⟩)

/-- One output row of `device_placement_summary`. -/
structure DevPlaceRow where
  device : String
  placement : String
  agg : Agg
  cpc : Option ℚ
deriving DecidableEq, Repr

/-- `device_placement_summary` (`analyzer.py` lines 548–557). -/
def devicePlacementSummary (f : Frame) : List DevPlaceRow :=
  if ¬ (f.hasDevice = true) ∨ ¬ (f.hasPlacement = true) then []
  else
    (groupAgg lexLePair
      (fun r =>
        match r.device, r.placement with
        | some d, some p => some (d, p)
        | _, _ => none) f.rows).map
      (fun cp => ⟨cp.1.1, cp.1.2, cp.2, safeDiv cp.2.spend cp.2.clicks⟩)

/-- One output row of `analyze_breakdown`. -/
structure BreakRow where
  platform : String
  device : String
  placement : String
  agg : Agg
  cvr : Option ℚ
deriving DecidableEq, Repr

/-- `analyze_breakdown` (`analyzer.py` lines 559–597): requires `Platform`;
a missing `Device`/`Placement` *column* is filled with `"Unknown"` before
grouping (a present column keeps its `NaN`s, and those rows are dropped by
`groupby`), then group by the triple and recompute CVR. -/
def analyzeBreakdown (f : Frame) : List BreakRow :=
  if ¬ (f.hasPlatform = true) then []
  else
    (groupAgg lexLe3
      (fun r =>
        match r.platform,
              (if f.hasDevice then r.device else some "Unknown"),
              (if f.hasPlacement then r.placement else some "Unknown") with
        | some p, some d, some pl => some (p, d, pl)
        | _, _, _ => none) f.rows).map
      (fun cp =>
        ⟨cp.1.1, cp.1.2.1, cp.1.2.2, cp.2, safeDiv cp.2.conversions cp.2.clicks⟩)

/-- One output row of `audience_summary`. -/
structure AudRow where
  age : String
  gender : String
  agg : Agg
  cpc : Option ℚ
  cvr : Option ℚ
deriving DecidableEq, Repr

/-- `audience_summary` (`analyzer.py` lines 603–613). -/
def audienceSummary (f : Frame) : List AudRow :=
  if ¬ (f.hasAge = true) ∨ ¬ (f.hasGender = true) then []
  else
    (groupAgg lexLePair
      (fun r =>
        match r.age, r.gender with
        | some a, some g => some (a, g)
        | _, _ => none) f.rows).map
      (fun cp =>
        ⟨cp.1.1, cp.1.2, cp.2,
         safeDiv cp.2.spend cp.2.clicks,
         safeDiv cp.2.conversions cp.2.clicks⟩)

/-- One output row of `analyze_conversion_prob`. -/
structure ConvRow where
  age : String
  gender : Option String
  clicks : ℚ
  conversions : ℚ
  spend : ℚ
  cr : Option ℚ
  cpc : Option ℚ
deriving DecidableEq, Repr

/-- The `(Age, Gender)` group key: defined only when both values are
present (pandas `groupby` drops rows with a `NaN` key level). -/
def ageGenderKey (r : Row) : Option (String × String) :=
  match r.age, r.gender with
  | some a, some g => some (a, g)
  | _, _ => none

/-- The output row built by `analyze_conversion_prob` for one kept segment:
CR = Conversions/Clicks·100 and CPC = Spend/Clicks, `NaN` on a non-positive
denominator. -/
def mkConvRow (s : String × Option String × Agg) : ConvRow :=
  ⟨s.1, s.2.1, s.2.2.clicks, s.2.2.conversions, s.2.2.spend,
   if 0 < s.2.2.clicks then some (s.2.2.conversions / s.2.2.clicks * 100) else none,
   safeDiv s.2.2.spend s.2.2.clicks⟩

/-- `analyze_conversion_prob` (`analyzer.py` lines 488–542): empty without
an `Age` column; keep only rows with `Clicks > 0`; group by `Age` (and
`Gender` when present); drop segments whose summed clicks are below
`min_clicks`. -/
def analyzeConversionProb (f : Frame) (minClicks : ℚ) : List ConvRow :=
  if ¬ (f.hasAge = true) then []
  else
    let rows := f.rows.filter (fun r => 0 < r.clicks)
    if rows.isEmpty then []
    else
      let segs : List (String × Option String × Agg) :=
        if f.hasGender then
          (groupAgg lexLePair ageGenderKey rows).map
            (fun cp => (cp.1.1, some cp.1.2, cp.2))
        else
          (groupAgg (κ := String) (· ≤ ·) (fun r => r.age) rows).map
            (fun cp => (cp.1, none, cp.2))
      let kept := segs.filter (fun s => minClicks ≤ s.2.2.clicks)
      kept.map mkConvRow

/-- Whole-table metric totals (`df["Spend"].sum()`, …). -/
def totalSpend (f : Frame) : ℚ := sumBy f.rows (·.spend)

/-- Total clicks of the table. -/
def totalClicks (f : Frame) : ℚ := sumBy f.rows (·.clicks)

/-- Total impressions of the table. -/
def totalImpressions (f : Frame) : ℚ := sumBy f.rows (·.impressions)

/-- Total conversions of the table. -/
def totalConversions (f : Frame) : ℚ := sumBy f.rows (·.conversions)

/-- Output of `funnel_summary`. -/
structure FunnelS where
  impressionsF : ℚ
  clicksF : ℚ
  conversionsF : ℚ
  ctr : Option ℚ
  cvr : Option ℚ
deriving DecidableEq, Repr

/-- `funnel_summary` (`analyzer.py` lines 472–484): whole-table totals with
null-safe CTR/CVR. -/
def funnelSummary (f : Frame) : FunnelS :=
  ⟨totalImpressions f, totalClicks f, totalConversions f,
   safeDiv (totalClicks f) (totalImpressions f),
   safeDiv (totalConversions f) (totalClicks f)⟩

/-- Output of `get_summary_kpis`: totals plus null-safe whole-table
CTR/CVR/CPC (`np.nan`, i.e. `none`, on a non-positive denominator). -/
structure SummaryKpis where
  totalSpendK : ℚ
  totalClicksK : ℚ
  totalImpressionsK : ℚ
  totalConversionsK : ℚ
  ctr : Option ℚ
  cvr : Option ℚ
  cpc : Option ℚ
deriving DecidableEq, Repr

/-- `get_summary_kpis` (`analyzer.py` lines 65–84). -/
def getSummaryKpis (f : Frame) : SummaryKpis :=
  ⟨totalSpend f, totalClicks f, totalImpressions f, totalConversions f,
   safeDiv (totalClicks f) (totalImpressions f),
   safeDiv (totalConversions f) (totalClicks f),
   safeDiv (totalSpend f) (totalClicks f)⟩

/-- Python `int(x)` on a float: truncation toward zero. -/
def ratTrunc (q : ℚ) : ℤ := q.num.tdiv (q.den : ℤ)

/-- Output of `get_kpis`.  The averages are Python floats (`Option ℚ` with
`none` = NaN); this function never produces NaN for them — on a zero
denominator it substitutes the number `0.0`. -/
structure Kpis where
  total_spend : ℚ
  total_clicks : ℤ
  total_impressions : ℤ
  total_conversions : ℤ
  avg_cpc : Option ℚ
  avg_ctr : Option ℚ
  avg_cpm : Option ℚ
  avg_sentiment : ℚ
deriving DecidableEq, Repr

/-- `get_kpis` (`analyzer.py` lines 89–134): totals, plus
`avg_cpc = total_spend/total_clicks if total_clicks > 0 else 0.0`,
`avg_ctr = total_clicks/total_impr*100 if total_impr > 0 else 0.0`,
`avg_cpm = total_spend/(total_impr/1000) if total_impr > 0 else 0.0`,
and the mean of the non-null `Sentiment` values (0.0 when absent/empty). -/
def getKpis (f : Frame) : Kpis :=
  { total_spend := totalSpend f,
    total_clicks := ratTrunc (totalClicks f),
    total_impressions := ratTrunc (totalImpressions f),
    total_conversions := ratTrunc (totalConversions f),
    avg_cpc :=
      if 0 < totalClicks f then some (totalSpend f / totalClicks f) else some 0,
    avg_ctr :=
      if 0 < totalImpressions f then some (totalClicks f / totalImpressions f * 100)
      else some 0,
    avg_cpm :=
      if 0 < totalImpressions f then some (totalSpend f / (totalImpressions f / 1000))
      else some 0,
    avg_sentiment :=
      if f.hasSentiment then
        let vals := f.rows.filterMap (·.sentiment)
        if vals.isEmpty then 0 else vals.sum / (vals.length : ℚ)
      else 0 }

/-- `analyze_cohort` (`analyzer.py` lines 210–216): the random cohort of the
old version is gone; the view now always returns two empty lists. -/
def analyzeCohort (_f : Frame) : List ℚ × List ℚ := ([], [])

/-- The fatal error of `MarketingAnalyzer.__init__`: `ValueError` when the
DataFrame is `None` or has zero rows. -/
inductive InitError where
  | emptyInput
deriving DecidableEq, Repr

/-- `MarketingAnalyzer.__init__` (`analyzer.py` lines 35–39): reject `None`
or an empty table, otherwise keep a copy of the table (the derived-column
pass is `prepareBaseMetrics` per row). -/
def marketingAnalyzerInit (df : Option Frame) : Except InitError Frame :=
  match df with
  | none => Except.error InitError.emptyInput
  | some f =>
    if f.rows.isEmpty then Except.error InitError.emptyInput else Except.ok f

/-!
## Anomaly detection (`detect_cpc_anomalies`, `analyzer.py` lines 221–246)

The trend table is sorted by date and the rolling statistics run over its
CPC column.  Pandas `rolling(window)` uses `min_periods = window`: an entry
is defined exactly when the trailing window holds `window` observations and
none of them is NaN.  The rolling standard deviation uses `ddof = 1`.
-/

/-- `df.sort_values("Date")` on the trend table (stable, ascending). -/
def sortTrendsByDate (ts : List TrendRow) : List TrendRow :=
  ts.insertionSort (fun a b => a.date ≤ b.date)

/-- The date-ordered CPC column the rolling statistics run over. -/
def cpcSeries (f : Frame) : List (Option ℚ) :=
  (sortTrendsByDate (getDailyTrends f)).map (·.cpc)

/-- The trailing window of width `w` ending at index `i`: defined exactly
when `w` observations exist up to `i` and all of them are non-NaN. -/
def windowAt (xs : List (Option ℚ)) (w i : ℕ) : Option (List ℚ) :=
  let win := (xs.take (i + 1)).drop (i + 1 - w)
  if w ≤ i + 1 ∧ win.all Option.isSome then some win.reduceOption else none

/-- `rolling(w).mean()` at index `i`. -/
def rollingMeanAt (xs : List (Option ℚ)) (w i : ℕ) : Option ℚ :=
  (windowAt xs w i).map (fun l => l.sum / (l.length : ℚ))

/-- `rolling(w).std()` at index `i` (sample standard deviation, `ddof = 1`;
meaningful for `w ≥ 2`, which covers the default `w = 7`). -/
noncomputable def rollingStdAt (xs : List (Option ℚ)) (w i : ℕ) : Option ℝ :=
  (windowAt xs w i).map (fun l =>
    Real.sqrt
      (((l.map (fun x => ((x : ℝ) - (l.sum : ℝ) / (l.length : ℝ)) ^ 2)).sum)
        / ((l.length : ℝ) - 1)))

/-- `Upper = rolling_mean + 2 * rolling_std` at index `i`. -/
noncomputable def upperAt (xs : List (Option ℚ)) (w i : ℕ) : Option ℝ :=
  match rollingMeanAt xs w i, rollingStdAt xs w i with
  | some m, some s => some ((m : ℝ) + 2 * s)
  | _, _ => none

/-- `Lower = rolling_mean - 2 * rolling_std` at index `i`. -/
noncomputable def lowerAt (xs : List (Option ℚ)) (w i : ℕ) : Option ℝ :=
  match rollingMeanAt xs w i, rollingStdAt xs w i with
  | some m, some s => some ((m : ℝ) - 2 * s)
  | _, _ => none

/-- `Is_Anomaly = df["CPC"] > df["Upper"]` at index `i`: true exactly when
both sides are defined and CPC strictly exceeds the upper bound (any
comparison against NaN is `False`). -/
def isAnomalyAt (xs : List (Option ℚ)) (w i : ℕ) : Prop :=
  ∃ c u, xs.get? i = some (some c) ∧ upperAt xs w i = some u ∧ u < (c : ℝ)

/-- One output row of `detect_cpc_anomalies`. -/
structure AnomalyRow where
  date : ℤ
  cpc : Option ℚ
  rollingMean : Option ℚ
  upper : Option ℝ
  lower : Option ℝ
  anomaly : Prop

/-- `detect_cpc_anomalies` (`analyzer.py` lines 221–246). -/
noncomputable def detectCpcAnomalies (f : Frame) (w : ℕ) : List AnomalyRow :=
  let ts := sortTrendsByDate (getDailyTrends f)
  let xs := ts.map (·.cpc)
  ts.enum.map (fun p =>
    { date := p.2.date,
      cpc := p.2.cpc,
      rollingMean := rollingMeanAt xs w p.1,
      upper := upperAt xs w p.1,
      lower := lowerAt xs w p.1,
      anomaly := isAnomalyAt xs w p.1 })

/-!
## Spend forecast (`forecast_spend` / `analyze_forecast`,
`analyzer.py` lines 318–379)

`np.polyfit(t, y, 1)` is embedded by the ordinary-least-squares closed form
for a degree-1 polynomial over the zero-based index `t = 0, 1, …, n-1`:
slope = (n·Σty − Σt·Σy)/(n·Σt² − (Σt)²), intercept = (Σy − slope·Σt)/n.
-/

/-- Total spend per distinct date of the trend table, dates ascending
(`trends.groupby("Date")["Spend"].sum()` sorted by date). -/
def dailySpend (f : Frame) : List (ℤ × ℚ) :=
  let trends := getDailyTrends f
  (((trends.map (·.date)).dedup).insertionSort (α := ℤ) (· ≤ ·)).map
    (fun d =>
      (d, ((trends.filter (fun tr => tr.date = d)).map (fun tr => tr.agg.spend)).sum))

/-- Running cumulative sum (`Series.cumsum()`). -/
def cumsum (xs : List ℚ) : List ℚ :=
  (List.range xs.length).map (fun i => (xs.take (i + 1)).sum)

/-- Σ t for t = 0, …, n-1. -/
def idxSum (n : ℕ) : ℚ := ((List.range n).map (fun (i : ℕ) => (i : ℚ))).sum

/-- Σ t² for t = 0, …, n-1. -/
def idxSqSum (n : ℕ) : ℚ := ((List.range n).map (fun (i : ℕ) => (i : ℚ) ^ 2)).sum

/-- Σ t·y_t over a series whose first element carries index `t`. -/
def dotIdxAux : ℕ → List ℚ → ℚ
  | _, [] => 0
  | t, y :: ys => (t : ℚ) * y + dotIdxAux (t + 1) ys

/-- Σ t·y_t over a series indexed from 0. -/
def dotIdx (ys : List ℚ) : ℚ := dotIdxAux 0 ys

/-- `np.polyfit(range(n), ys, 1)` as `(slope, intercept)`: the closed-form
ordinary-least-squares fit of a degree-1 polynomial. -/
def polyfit1 (ys : List ℚ) : ℚ × ℚ :=
  let n : ℚ := (ys.length : ℚ)
  let d := n * idxSqSum ys.length - (idxSum ys.length) ^ 2
  let slope := (n * dotIdx ys - idxSum ys.length * ys.sum) / d
  (slope, (ys.sum - slope * idxSum ys.length) / n)

/-- `np.polyval([slope, intercept], t)`. -/
def polyval1 (c : ℚ × ℚ) (t : ℚ) : ℚ := c.1 * t + c.2

/-- `forecast_spend` (`analyzer.py` lines 318–337): bucket spend by date,
fit daily spend linearly over the zero-based index, and return the
`days_forward` future (date, forecast) pairs; empty when the trend table is
empty or there are fewer than 5 distinct days. -/
def forecastSpend (f : Frame) (daysForward : ℕ) : List (ℤ × ℚ) :=
  let trends := getDailyTrends f
  if trends.isEmpty then []
  else
    let ds := dailySpend f
    if ds.length < 5 then []
    else
      let coeffs := polyfit1 (ds.map Prod.snd)
      let lastT : ℚ := (ds.length : ℚ) - 1
      let lastDate : ℤ := (ds.map Prod.fst).getLastD 0
      (List.range daysForward).map
        (fun (i : ℕ) => (lastDate + (i : ℤ) + 1, polyval1 coeffs (lastT + (i : ℚ) + 1)))

/-- `analyze_forecast` (`analyzer.py` lines 339–379): the daily table with
cumulative spend `Cum`, plus 15 future dates and the linear extrapolation of
the cumulative spend; the forecast components are empty when the trend
table is empty or there are fewer than 5 distinct days. -/
def analyzeForecast (f : Frame) : List (ℤ × ℚ × ℚ) × List ℤ × List ℚ :=
  let trends := getDailyTrends f
  if trends.isEmpty then ([], [], [])
  else
    let ds := dailySpend f
    let cums := cumsum (ds.map Prod.snd)
    let daily := (ds.zip cums).map (fun p => (p.1.1, p.1.2, p.2))
    if ds.length < 5 then (daily, [], [])
    else
      let coeffs := polyfit1 cums
      let lastT : ℚ := (ds.length : ℚ) - 1
      let lastDate : ℤ := (ds.map Prod.fst).getLastD 0
      (daily,
       (List.range 15).map (fun (i : ℕ) => lastDate + (i : ℤ) + 1),
       (List.range 15).map (fun (i : ℕ) => polyval1 coeffs (lastT + (i : ℚ) + 1)))

/-!
## A/B significance test (`ab_test_analysis`, `analyzer.py` lines 255–294)
-/

/-- The error function, `math.erf`: (2/√π)·∫₀ˣ exp(−t²) dt. -/
noncomputable def erf (x : ℝ) : ℝ :=
  (2 / Real.sqrt Real.pi) * ∫ t in (0 : ℝ)..x, Real.exp (-(t ^ 2))

/-- `_norm_cdf` (`analyzer.py` lines 8–10): the standard normal CDF computed
from the error function, Φ(x) = (1 + erf(x/√2))/2. -/
noncomputable def norm_cdf (x : ℝ) : ℝ :=
  0.5 * (1 + erf (x / Real.sqrt 2))

/-- Per-campaign click/conversion sums, group keys sorted
(`groupby("Campaign")[["Clicks", "Conversions"]].sum()`). -/
def campaignAggs (f : Frame) : List (String × ℚ × ℚ) :=
  (((f.rows.filterMap (·.campaign)).dedup).insertionSort (· ≤ ·)).map
    (fun c =>
      let sel := f.rows.filter (fun r => r.campaign = some c)
      (c, sumBy sel (·.clicks), sumBy sel (·.conversions)))

/-- `.sort_values("Clicks", ascending=False)` on the campaign table. -/
def clicksDescRel (a b : String × ℚ × ℚ) : Prop := b.2.1 ≤ a.2.1

instance : DecidableRel clicksDescRel := fun a b => by
  unfold clicksDescRel; infer_instance

instance : IsTotal (String × ℚ × ℚ) clicksDescRel :=
  ⟨fun a b => (le_total b.2.1 a.2.1).imp (fun h => h) (fun h => h)⟩

instance : IsTrans (String × ℚ × ℚ) clicksDescRel :=
  ⟨fun _ _ _ hab hbc => le_trans hbc hab⟩

/-- The top two campaigns by total clicks (`sort_values` + `head(2)`). -/
def abTop2 (f : Frame) : List (String × ℚ × ℚ) :=
  ((campaignAggs f).insertionSort clicksDescRel).take 2

/-- The computable selection stage of `ab_test_analysis`: the status checks
and the two selected campaigns with their click/conversion sums. -/
inductive ABSel where
  | noCampaignData
  | notEnoughCampaigns
  | insufficientSampleSize
  | pair (c1 : String) (clicks1 conv1 : ℚ) (c2 : String) (clicks2 conv2 : ℚ)
deriving DecidableEq, Repr

/-- Selection and sample-size logic of `ab_test_analysis`: no `Campaign`
column, fewer than two campaigns, or a selected campaign with fewer than 30
clicks each short-circuit with the corresponding status. -/
def abSelect (f : Frame) : ABSel :=
  if ¬ (f.hasCampaign = true) then ABSel.noCampaignData
  else
    match abTop2 f with
    | [(c1, k1, v1), (c2, k2, v2)] =>
      if k1 < 30 ∨ k2 < 30 then ABSel.insufficientSampleSize
      else ABSel.pair c1 k1 v1 c2 k2 v2
    | _ => ABSel.notEnoughCampaigns

/-- The result of `ab_test_analysis`: a status, or the full statistics
record of the two-proportion z-test. -/
inductive ABResult where
  | noCampaignData
  | notEnoughCampaigns
  | insufficientSampleSize
  | ok (campaignA campaignB : String) (p1 p2 : ℚ) (z pValue confidence : ℝ)
      (winner : String)

/-- `ab_test_analysis` (`analyzer.py` lines 255–294): after selection,
p₁ = conv₁/clicks₁, p₂ = conv₂/clicks₂ (0 on non-positive clicks),
p_pool = (conv₁+conv₂)/(clicks₁+clicks₂),
se = √(p_pool·(1−p_pool)·(1/clicks₁+1/clicks₂)),
z = (p₁−p₂)/se when se > 0 else 0, p-value = 2·(1−Φ(|z|)),
confidence = (1−p_value)·100, winner = campaign A iff p₁ > p₂. -/
noncomputable def abTestAnalysis (f : Frame) : ABResult :=
  match abSelect f with
  | ABSel.noCampaignData => ABResult.noCampaignData
  | ABSel.notEnoughCampaigns => ABResult.notEnoughCampaigns
  | ABSel.insufficientSampleSize => ABResult.insufficientSampleSize
  | ABSel.pair c1 k1 v1 c2 k2 v2 =>
    let p1 : ℚ := if 0 < k1 then v1 / k1 else 0
    let p2 : ℚ := if 0 < k2 then v2 / k2 else 0
    let pPool : ℚ := (v1 + v2) / (k1 + k2)
    let se : ℝ :=
      Real.sqrt ((pPool : ℝ) * (1 - (pPool : ℝ)) * (1 / (k1 : ℝ) + 1 / (k2 : ℝ)))
    let z : ℝ := if 0 < se then ((p1 : ℝ) - (p2 : ℝ)) / se else 0
    let pValue : ℝ := 2 * (1 - norm_cdf |z|)
    ABResult.ok c1 c2 p1 p2 z pValue ((1 - pValue) * 100)
      (if p2 < p1 then c1 else c2)

/-!
## Keyword frequency (`adname_keyword_analysis`, `analyzer.py` lines 618–638)
-/

/-- The stop-word set of `adname_keyword_analysis`. -/
def STOPWORDS : List String :=
  ["v1", "v2", "copy", "final", "ads", "ad", "-", "_", "the", "a", "an"]

/-- Python whitespace as split by `str.split()`. -/
def isWs (c : Char) : Prop := c = ' ' ∨ c = '\t' ∨ c = '\n' ∨ c = '\r'

instance : DecidablePred isWs := fun c => by
  unfold isWs; infer_instance

/-- `str.split()` over characters: split on whitespace runs, dropping empty
pieces; `cur` accumulates the current token reversed. -/
def splitWsAux : List Char → List Char → List String
  | [], cur => if cur.isEmpty then [] else [String.mk cur.reverse]
  | c :: rest, cur =>
    if isWs c then
      if cur.isEmpty then splitWsAux rest []
      else String.mk cur.reverse :: splitWsAux rest []
    else splitWsAux rest (c :: cur)

/-- `name.lower().replace("-", " ").replace("_", " ").split()`: lower-case,
turn hyphens and underscores into spaces, split on whitespace. -/
def tokenize (s : String) : List String :=
  splitWsAux ((lowerStr s).data.map (fun c => if c = '-' ∨ c = '_' then ' ' else c)) []

/-- `str(row["AdName"])`: a missing AdName prints as `"nan"`. -/
def adNameStr (r : Row) : String :=
  match r.adName with
  | some s => s
  | none => "nan"

/-- The surviving tokens of one row: not a stop word and longer than 2
characters. -/
def rowTokens (r : Row) : List String :=
  (tokenize (adNameStr r)).filter (fun t => ¬ t ∈ STOPWORDS ∧ t.length > 2)

/-- `keywords[token] = keywords.get(token, 0) + clicks`: dict accumulation
preserving insertion order (update the token's entry, else append). -/
def addClicks : List (String × ℚ) → String → ℚ → List (String × ℚ)
  | [], tok, clk => [(tok, clk)]
  | e :: m, tok, clk =>
    if e.1 = tok then (e.1, e.2 + clk) :: m
    else e :: addClicks m tok clk

/-- The keyword→clicks dictionary accumulated over all rows. -/
def keywordDict (rs : List Row) : List (String × ℚ) :=
  rs.foldl (fun m r => (rowTokens r).foldl (fun m t => addClicks m t r.clicks) m) []

/-- Descending order by accumulated clicks
(`sorted(..., key=lambda x: x[1], reverse=True)`). -/
def kwDescRel (a b : String × ℚ) : Prop := b.2 ≤ a.2

instance : DecidableRel kwDescRel := fun a b => by
  unfold kwDescRel; infer_instance

instance : IsTotal (String × ℚ) kwDescRel :=
  ⟨fun a b => (le_total b.2 a.2).imp (fun h => h) (fun h => h)⟩

instance : IsTrans (String × ℚ) kwDescRel :=
  ⟨fun _ _ _ hab hbc => le_trans hbc hab⟩

/-- `adname_keyword_analysis` (`analyzer.py` lines 618–638): empty without
an `AdName` column or with an empty dictionary; otherwise the top `top_n`
tokens by accumulated clicks, descending. -/
def adnameKeywordAnalysis (f : Frame) (topN : ℕ) : List (String × ℚ) :=
  if ¬ (f.hasAdName = true) then []
  else
    let kw := keywordDict f.rows
    if kw.isEmpty then []
    else (kw.insertionSort kwDescRel).take topN

/-!
## General lemmas
-/

/-- Membership in a grouped aggregation: a pair `(c, a)` is produced exactly
when the key `c` occurs among the rows and `a` is the metric sums of the
rows carrying that key. -/
theorem mem_groupAgg {κ : Type} [DecidableEq κ] (le : κ → κ → Prop) [DecidableRel le]
    (k : Row → Option κ) (rs : List Row) (c : κ) (a : Agg) :
    (c, a) ∈ groupAgg le k rs ↔
      ((∃ r ∈ rs, k r = some c) ∧ a = aggOf (rs.filter (fun r => k r = some c))) := by
  unfold groupAgg
  rw [List.mem_map]
  constructor
  · rintro ⟨x, hx, hEq⟩
    rw [Prod.mk.injEq] at hEq
    obtain ⟨rfl, rfl⟩ := hEq
    rw [List.mem_insertionSort, List.mem_dedup, List.mem_filterMap] at hx
    exact ⟨hx, rfl⟩
  · rintro ⟨⟨r, hr, hk⟩, rfl⟩
    refine ⟨c, ?_, rfl⟩
    rw [List.mem_insertionSort, List.mem_dedup, List.mem_filterMap]
    exact ⟨r, hr, hk⟩

/-- `safeDiv` is `none` on a zero denominator. -/
theorem safeDiv_eq_none {num den : ℚ} (h : den = 0) : safeDiv num den = none := by
  simp [safeDiv, h]

/-- C9: the Analyzer is deterministic — every view is a pure function of
the table, so computing it twice yields identical results, and the cohort
view (whose only prior implementation was random) returns an empty result
instead of fabricated values. -/
theorem analyzer_deterministic_cohort_empty :
    ∀ f : Frame,
      analyzeCohort f = ([], []) ∧
      getKpis f = getKpis f ∧
      getSummaryKpis f = getSummaryKpis f ∧
      getDailyTrends f = getDailyTrends f ∧
      analyzePlatformEfficiency f = analyzePlatformEfficiency f ∧
      geoPerformance f = geoPerformance f ∧
      devicePlacementSummary f = devicePlacementSummary f ∧
      analyzeBreakdown f = analyzeBreakdown f ∧
      audienceSummary f = audienceSummary f ∧
      (∀ m, analyzeConversionProb f m = analyzeConversionProb f m) ∧
      (∀ w, detectCpcAnomalies f w = detectCpcAnomalies f w) ∧
      analyzeForecast f = analyzeForecast f ∧
      (∀ n, forecastSpend f n = forecastSpend f n) ∧
      abTestAnalysis f = abTestAnalysis f ∧
      (∀ n, adnameKeywordAnalysis f n = adnameKeywordAnalysis f n) ∧
      funnelSummary f = funnelSummary f :=
  fun _ =>
    ⟨rfl, rfl, rfl, rfl, rfl, rfl, rfl, rfl, rfl, fun _ => rfl, fun _ => rfl,
     rfl, fun _ => rfl, rfl, fun _ => rfl, rfl⟩

/-- C4: the error taxonomy of the pipeline boundary.  (i) No source files:
`loadData` fails with `inputNotFound`.  (ii) Files found but every one
unreadable or empty: `loadData` fails with the distinct error
`noUsableData`.  (iii) A single unreadable source is skipped and the run
continues: dropping it from the source list does not change the result (as
long as the remaining list is non-empty, so the no-files error cannot
fire).  (iv) Constructing the Analyzer on `None` or a zero-row table fails
with `emptyInput`; on a non-empty table it succeeds with the same table.
Every failure is a raised error, never substituted data. -/
theorem pipeline_error_taxonomy :
    (loadData [] = Except.error LoadError.inputNotFound) ∧
    (∀ sources : List (String × Option RawTable),
      sources ≠ [] →
      (∀ s ∈ sources, s.2 = none ∨ ∃ t, s.2 = some t ∧ emptyTable t = true) →
      loadData sources = Except.error LoadError.noUsableData) ∧
    (∀ (pre post : List (String × Option RawTable)) (nm : String),
      pre ++ post ≠ [] →
      loadData (pre ++ (nm, none) :: post) = loadData (pre ++ post)) ∧
    (marketingAnalyzerInit none = Except.error InitError.emptyInput) ∧
    (∀ f : Frame, f.rows = [] →
      marketingAnalyzerInit (some f) = Except.error InitError.emptyInput) ∧
    (∀ f : Frame, f.rows ≠ [] → marketingAnalyzerInit (some f) = Except.ok f) := by
  refine ⟨rfl, ?_, ?_, rfl, ?_, ?_⟩
  · intro sources hne hall
    unfold loadData
    rw [if_neg (by simpa [List.isEmpty_iff] using hne)]
    have hframes : sources.filterMap (fun s =>
        match s.2 with
        | some t => if emptyTable t then none else some (addSourceFile s.1 t)
        | none => none) = [] := by
      rw [List.filterMap_eq_nil_iff]
      intro s hs
      rcases hall s hs with h | ⟨t, ht, hempty⟩
      · simp [h]
      · simp [ht, hempty]
    simp [hframes]
  · intro pre post nm hne
    unfold loadData
    have hframes : (pre ++ (nm, none) :: post).filterMap (fun s =>
        match s.2 with
        | some t => if emptyTable t then none else some (addSourceFile s.1 t)
        | none => none) = (pre ++ post).filterMap (fun s =>
        match s.2 with
        | some t => if emptyTable t then none else some (addSourceFile s.1 t)
        | none => none) := by
      rw [List.filterMap_append, List.filterMap_append, List.filterMap_cons]
    have h1 : ((pre ++ (nm, none) :: post).isEmpty) = false := by
      simp [List.isEmpty_iff]
    have h2 : ((pre ++ post).isEmpty) = false := by
      simpa [List.isEmpty_iff] using hne
    rw [h1, h2]
    simp only [Bool.false_eq_true, if_false, hframes]
  · intro f hf
    show (if f.rows.isEmpty = true then Except.error InitError.emptyInput else Except.ok f) = _
    rw [if_pos (by simpa [List.isEmpty_iff] using hf)]
  · intro f hf
    show (if f.rows.isEmpty = true then Except.error InitError.emptyInput else Except.ok f) = _
    rw [if_neg (by simpa [List.isEmpty_iff] using hf)]

/-- Witness for the error-taxonomy theorem at concrete inputs: one
unparseable source yields `noUsableData`; dropping a failed source from a
two-source list leaves the result unchanged; the Analyzer rejects a
zero-row frame and accepts a one-row frame. -/
theorem pipeline_error_taxonomy_witness :
    (loadData [("bad.csv", none)] = Except.error LoadError.noUsableData) ∧
    (loadData [("a.csv", some [("Date", [Cell.date 1])]), ("bad.csv", none)] =
      loadData [("a.csv", some [("Date", [Cell.date 1])])]) ∧
    (marketingAnalyzerInit (some ⟨[], true, true, true, true, true, true, true, true, true, true⟩) =
      Except.error InitError.emptyInput) := by
  refine ⟨?_, ?_, ?_⟩
  · exact pipeline_error_taxonomy.2.1 [("bad.csv", none)] (by decide)
      (by intro s hs; simp at hs; simp [hs])
  · exact pipeline_error_taxonomy.2.2.1 [("a.csv", some [("Date", [Cell.date 1])])] [] "bad.csv"
      (by decide)
  · exact pipeline_error_taxonomy.2.2.2.2.1 _ rfl

/-- C1 (amended): in every canonical table, the row-level derived
CPC/CTR/CVR computed at construction and every grouped ratio of every view
(daily trends, platform efficiency, geo, device/placement, breakdown,
audience, conversion probability, funnel, summary KPIs) is `none` (NaN)
whenever its denominator is zero — never an exception and never infinity;
but the summary-KPI ratios `avg_cpc`/`avg_ctr`/`avg_cpm` of `get_kpis`
substitute the number `0.0` (not null) when their denominator is zero. -/
theorem ratio_null_on_zero_denominator :
    ∀ f : Frame,
      (∀ r : Row,
        (r.clicks = 0 →
          (prepareBaseMetrics r).cpc = none ∧ (prepareBaseMetrics r).cvr = none) ∧
        (r.impressions = 0 → (prepareBaseMetrics r).ctr = none)) ∧
      (∀ tr ∈ getDailyTrends f,
        (tr.agg.clicks = 0 → tr.cpc = none ∧ tr.cvr = none) ∧
        (tr.agg.impressions = 0 → tr.ctr = none)) ∧
      (∀ p ∈ analyzePlatformEfficiency f,
        (p.agg.clicks = 0 → p.cpc = none ∧ p.cvr = none) ∧
        (p.agg.impressions = 0 → p.ctr = none ∧ p.cpm = none)) ∧
      (∀ g ∈ geoPerformance f,
        (g.agg.clicks = 0 → g.cpc = none ∧ g.cvr = none) ∧
        (g.agg.impressions = 0 → g.ctr = none)) ∧
      (∀ d ∈ devicePlacementSummary f, d.agg.clicks = 0 → d.cpc = none) ∧
      (∀ b ∈ analyzeBreakdown f, b.agg.clicks = 0 → b.cvr = none) ∧
      (∀ a ∈ audienceSummary f, a.agg.clicks = 0 → a.cpc = none ∧ a.cvr = none) ∧
      (∀ m : ℚ, ∀ s ∈ analyzeConversionProb f m,
        s.clicks = 0 → s.cr = none ∧ s.cpc = none) ∧
      (totalImpressions f = 0 → (funnelSummary f).ctr = none) ∧
      (totalClicks f = 0 → (funnelSummary f).cvr = none) ∧
      (totalImpressions f = 0 → (getSummaryKpis f).ctr = none) ∧
      (totalClicks f = 0 →
        (getSummaryKpis f).cvr = none ∧ (getSummaryKpis f).cpc = none) ∧
      (totalClicks f = 0 → (getKpis f).avg_cpc = some 0) ∧
      (totalImpressions f = 0 →
        (getKpis f).avg_ctr = some 0 ∧ (getKpis f).avg_cpm = some 0) := by
  intro f
  refine ⟨?_, ?_, ?_, ?_, ?_, ?_, ?_, ?_, ?_, ?_, ?_, ?_, ?_, ?_⟩
  · intro r
    refine ⟨fun h => ⟨?_, ?_⟩, fun h => ?_⟩ <;>
      simp [prepareBaseMetrics, safeDiv, h]
  · intro tr htr
    unfold getDailyTrends at htr
    split at htr
    · simp at htr
    · split at htr <;>
      · rw [List.mem_map] at htr
        obtain ⟨cp, _, rfl⟩ := htr
        refine ⟨fun h => ⟨?_, ?_⟩, fun h => ?_⟩ <;>
          simp only [mkTrendRow] at h ⊢ <;> simp [safeDiv, h]
  · intro p hp
    unfold analyzePlatformEfficiency at hp
    split at hp
    · simp at hp
    · rw [List.mem_map] at hp
      obtain ⟨cp, _, rfl⟩ := hp
      refine ⟨fun h => ⟨?_, ?_⟩, fun h => ⟨?_, ?_⟩⟩ <;>
        simp only [] at h ⊢ <;> simp [safeDiv, h]
  · intro g hg
    unfold geoPerformance at hg
    split at hg
    · simp at hg
    · rw [List.mem_map] at hg
      obtain ⟨cp, _, rfl⟩ := hg
      refine ⟨fun h => ⟨?_, ?_⟩, fun h => ?_⟩ <;>
        simp only [] at h ⊢ <;> simp [safeDiv, h]
  · intro d hd
    unfold devicePlacementSummary at hd
    split at hd
    · simp at hd
    · rw [List.mem_map] at hd
      obtain ⟨cp, _, rfl⟩ := hd
      intro h
      simp only [] at h ⊢
      simp [safeDiv, h]
  · intro b hb
    unfold analyzeBreakdown at hb
    split at hb
    · simp at hb
    · rw [List.mem_map] at hb
      obtain ⟨cp, _, rfl⟩ := hb
      intro h
      simp only [] at h ⊢
      simp [safeDiv, h]
  · intro a ha
    unfold audienceSummary at ha
    split at ha
    · simp at ha
    · rw [List.mem_map] at ha
      obtain ⟨cp, _, rfl⟩ := ha
      refine fun h => ⟨?_, ?_⟩ <;> simp only [] at h ⊢ <;> simp [safeDiv, h]
  · intro m s hs
    have himg : ∃ seg, s = mkConvRow seg := by
      unfold analyzeConversionProb at hs
      by_cases hA : f.hasAge = true
      · simp only [hA, not_true, ite_false, if_false] at hs
        by_cases hE : (f.rows.filter (fun r => decide (0 < r.clicks))).isEmpty = true
        · simp only [hE, ite_true, if_true] at hs
          simp at hs
        · rw [if_neg hE] at hs
          simp only [List.mem_map] at hs
          obtain ⟨seg, _, rfl⟩ := hs
          exact ⟨seg, rfl⟩
      · simp only [eq_false hA, ite_true, if_true] at hs
        simp at hs
    obtain ⟨seg, rfl⟩ := himg
    intro h
    simp only [mkConvRow] at h ⊢
    simp [safeDiv, h]
  · intro h; simp [funnelSummary, safeDiv, h]
  · intro h; simp [funnelSummary, safeDiv, h]
  · intro h; simp [getSummaryKpis, safeDiv, h]
  · intro h
    constructor <;> simp [getSummaryKpis, safeDiv, h]
  · intro h; simp [getKpis, h]
  · intro h
    constructor <;> simp [getKpis, h]

/-- Counterexample to C1 as stated: on a one-row table whose `Clicks` and
`Impressions` totals are zero, `get_kpis` does *not* return a null
`avg_cpc`/`avg_ctr`/`avg_cpm` — it substitutes the number `0.0`. -/
theorem get_kpis_substitutes_zero :
    let z : Row :=
      ⟨some 1, 5, 0, 0, 0, none, none, none, none, none, none, none, none, none⟩
    let f : Frame :=
      ⟨[z], true, true, true, true, true, true, true, true, true, true⟩
    totalClicks f = 0 ∧ totalImpressions f = 0 ∧
    (getKpis f).avg_cpc = some 0 ∧ (getKpis f).avg_cpc ≠ none ∧
    (getKpis f).avg_ctr = some 0 ∧ (getKpis f).avg_cpm = some 0 := by
  refine ⟨?_, ?_, ?_, ?_, ?_, ?_⟩ <;>
    simp [getKpis, totalClicks, totalImpressions, sumBy]

/-- Witness for the amended C1 theorem at a concrete input: a zero-click
row yields null CPC at construction, and `get_kpis` yields the substituted
number `0.0`. -/
theorem ratio_null_on_zero_denominator_witness :
    let z : Row :=
      ⟨some 1, 5, 0, 0, 0, none, none, none, none, none, none, none, none, none⟩
    let f : Frame :=
      ⟨[z], true, true, true, true, true, true, true, true, true, true⟩
    (prepareBaseMetrics z).cpc = none ∧ (getKpis f).avg_cpc = some 0 := by
  intro z f
  have h1 : z.clicks = 0 := rfl
  have h2 : totalClicks f = 0 := by simp [totalClicks, sumBy, z]
  exact ⟨((ratio_null_on_zero_denominator f).1 z).1 h1 |>.1,
    (ratio_null_on_zero_denominator f).2.2.2.2.2.2.2.2.2.2.2.2.1 h2⟩

/-- C10: `analyze_conversion_prob` first discards every row without
strictly positive `Clicks` (so a zero-click row contributes neither spend
nor conversions to any segment), reports a segment exactly when its summed
clicks over the surviving rows reach `min_clicks`, and returns an empty
result when the `Age` column is absent (and, as the characterizations
imply, when no segment survives). -/
theorem conversion_prob_spec :
    ∀ (f : Frame) (m : ℚ),
      (¬ (f.hasAge = true) → analyzeConversionProb f m = []) ∧
      (∀ s ∈ analyzeConversionProb f m, m ≤ s.clicks) ∧
      (f.hasAge = true → f.hasGender = true → ∀ s,
        (s ∈ analyzeConversionProb f m ↔
          ∃ a g,
            (∃ r ∈ f.rows, 0 < r.clicks ∧ ageGenderKey r = some (a, g)) ∧
            m ≤ (aggOf ((f.rows.filter (fun r => 0 < r.clicks)).filter
                  (fun r => ageGenderKey r = some (a, g)))).clicks ∧
            s = mkConvRow (a, some g,
                  aggOf ((f.rows.filter (fun r => 0 < r.clicks)).filter
                    (fun r => ageGenderKey r = some (a, g)))))) ∧
      (f.hasAge = true → ¬ (f.hasGender = true) → ∀ s,
        (s ∈ analyzeConversionProb f m ↔
          ∃ a,
            (∃ r ∈ f.rows, 0 < r.clicks ∧ r.age = some a) ∧
            m ≤ (aggOf ((f.rows.filter (fun r => 0 < r.clicks)).filter
                  (fun r => r.age = some a))).clicks ∧
            s = mkConvRow (a, none,
                  aggOf ((f.rows.filter (fun r => 0 < r.clicks)).filter
                    (fun r => r.age = some a))))) := by
  intro f m
  refine ⟨?_, ?_, ?_, ?_⟩
  · intro hA
    unfold analyzeConversionProb
    rw [if_pos hA]
  · intro s hs
    unfold analyzeConversionProb at hs
    by_cases hA : f.hasAge = true
    · rw [if_neg (not_not_intro hA)] at hs
      by_cases hE : (f.rows.filter (fun r => 0 < r.clicks)).isEmpty = true
      · rw [if_pos hE] at hs
        simp at hs
      · rw [if_neg hE] at hs
        simp only [List.mem_map, List.mem_filter] at hs
        obtain ⟨seg, ⟨_, hkeep⟩, rfl⟩ := hs
        have : m ≤ seg.2.2.clicks := by simpa using hkeep
        simpa [mkConvRow] using this
    · rw [if_pos (by simpa using hA)] at hs
      simp at hs
  · intro hA hG s
    unfold analyzeConversionProb
    rw [if_neg (not_not_intro hA)]
    by_cases hE : (f.rows.filter (fun r => 0 < r.clicks)).isEmpty = true
    · rw [if_pos hE]
      simp only [List.not_mem_nil, false_iff]
      rintro ⟨a, g, ⟨r, hr, hc, hk⟩, -, -⟩
      rw [List.isEmpty_iff] at hE
      have : r ∈ f.rows.filter (fun r => 0 < r.clicks) := by
        rw [List.mem_filter]
        exact ⟨hr, by simpa using hc⟩
      rw [hE] at this
      simp at this
    · rw [if_neg hE, if_pos hG]
      simp only [List.mem_map, List.mem_filter, List.mem_map]
      constructor
      · rintro ⟨seg, ⟨⟨cp, hcp, rfl⟩, hkeep⟩, rfl⟩
        obtain ⟨c, a⟩ := cp
        rw [mem_groupAgg] at hcp
        obtain ⟨⟨r, hr, hk⟩, rfl⟩ := hcp
        rw [List.mem_filter] at hr
        refine ⟨c.1, c.2, ⟨r, hr.1, by simpa using hr.2, by simpa using hk⟩,
          by simpa using hkeep, by simp⟩
      · rintro ⟨a, g, ⟨r, hr, hc, hk⟩, hm, rfl⟩
        refine ⟨(a, some g,
          aggOf ((f.rows.filter (fun r => 0 < r.clicks)).filter
            (fun r => ageGenderKey r = some (a, g)))), ⟨⟨((a, g), _), ?_, rfl⟩, ?_⟩, rfl⟩
        · rw [mem_groupAgg]
          exact ⟨⟨r, by rw [List.mem_filter]; exact ⟨hr, by simpa using hc⟩, hk⟩, rfl⟩
        · simpa using hm
  · intro hA hG s
    unfold analyzeConversionProb
    rw [if_neg (not_not_intro hA)]
    by_cases hE : (f.rows.filter (fun r => 0 < r.clicks)).isEmpty = true
    · rw [if_pos hE]
      simp only [List.not_mem_nil, false_iff]
      rintro ⟨a, ⟨r, hr, hc, hk⟩, -, -⟩
      rw [List.isEmpty_iff] at hE
      have : r ∈ f.rows.filter (fun r => 0 < r.clicks) := by
        rw [List.mem_filter]
        exact ⟨hr, by simpa using hc⟩
      rw [hE] at this
      simp at this
    · rw [if_neg hE, if_neg hG]
      simp only [List.mem_map, List.mem_filter, List.mem_map]
      constructor
      · rintro ⟨seg, ⟨⟨cp, hcp, rfl⟩, hkeep⟩, rfl⟩
        obtain ⟨c, a⟩ := cp
        rw [mem_groupAgg] at hcp
        obtain ⟨⟨r, hr, hk⟩, rfl⟩ := hcp
        rw [List.mem_filter] at hr
        refine ⟨c, ⟨r, hr.1, by simpa using hr.2, hk⟩, by simpa using hkeep, by simp⟩
      · rintro ⟨a, ⟨r, hr, hc, hk⟩, hm, rfl⟩
        refine ⟨(a, none,
          aggOf ((f.rows.filter (fun r => 0 < r.clicks)).filter
            (fun r => r.age = some a))), ⟨⟨(a, _), ?_, rfl⟩, ?_⟩, rfl⟩
        · rw [mem_groupAgg]
          exact ⟨⟨r, by rw [List.mem_filter]; exact ⟨hr, by simpa using hc⟩, hk⟩, rfl⟩
        · simpa using hm

/-- A 40-click converting row in segment "18-24". -/
def rowC10a : Row :=
  ⟨some 1, 8, 40, 100, 4, none, none, none, none, some "18-24", none, none, none, none⟩

/-- A zero-click row in the same segment with large spend/conversions: it
must not count toward the segment's totals. -/
def rowC10b : Row :=
  ⟨some 1, 100, 0, 50, 50, none, none, none, none, some "18-24", none, none, none, none⟩

/-- Two-row frame with an `Age` column and no `Gender` column. -/
def frameC10 : Frame :=
  ⟨[rowC10a, rowC10b], true, false, false, false, false, true, false, false, false, false⟩

/-- Witness for the conversion-probability characterization at a concrete
input: the "18-24" segment is reported, and its totals ignore the
zero-click row (clicks 40 and spend 8, not 140 and 108). -/
theorem conversion_prob_spec_witness :
    mkConvRow ("18-24", none,
      aggOf ((frameC10.rows.filter (fun r => 0 < r.clicks)).filter
        (fun r => r.age = some "18-24"))) ∈ analyzeConversionProb frameC10 30 ∧
    (aggOf ((frameC10.rows.filter (fun r => 0 < r.clicks)).filter
      (fun r => r.age = some "18-24"))).clicks = 40 ∧
    (aggOf ((frameC10.rows.filter (fun r => 0 < r.clicks)).filter
      (fun r => r.age = some "18-24"))).spend = 8 := by
  have heval : ((frameC10.rows.filter (fun r => 0 < r.clicks)).filter
      (fun r => r.age = some "18-24")) = [rowC10a] := by
    simp [frameC10, rowC10a, rowC10b]
  refine ⟨?_, ?_, ?_⟩
  · refine ((conversion_prob_spec frameC10 30).2.2.2 rfl (by simp [frameC10])
      _).mpr ⟨"18-24", ⟨rowC10a, ?_, ?_, rfl⟩, ?_, rfl⟩
    · simp [frameC10]
    · norm_num [rowC10a]
    · rw [heval]
      norm_num [aggOf, sumBy, rowC10a]
  · rw [heval]
    norm_num [aggOf, sumBy, rowC10a]
  · rw [heval]
    norm_num [aggOf, sumBy, rowC10a]

/-!
## Least-squares lemmas for the forecast claim
-/

/-- Closed form of Σ t over `t = 0, …, n-1`. -/
theorem idxSum_eq (n : ℕ) : idxSum n = (n : ℚ) * ((n : ℚ) - 1) / 2 := by
  induction n with
  | zero => simp [idxSum]
  | succ k ih =>
    unfold idxSum at ih ⊢
    rw [List.range_succ, List.map_append, List.sum_append]
    simp only [List.map_cons, List.map_nil, List.sum_cons, List.sum_nil]
    rw [ih]
    push_cast
    ring

/-- Closed form of Σ t² over `t = 0, …, n-1`. -/
theorem idxSqSum_eq (n : ℕ) :
    idxSqSum n = (n : ℚ) * ((n : ℚ) - 1) * (2 * (n : ℚ) - 1) / 6 := by
  induction n with
  | zero => simp [idxSqSum]
  | succ k ih =>
    unfold idxSqSum at ih ⊢
    rw [List.range_succ, List.map_append, List.sum_append]
    simp only [List.map_cons, List.map_nil, List.sum_cons, List.sum_nil]
    rw [ih]
    push_cast
    ring

/-- Appending one value to an index-weighted sum. -/
theorem dotIdxAux_append (t : ℕ) (l : List ℚ) (y : ℚ) :
    dotIdxAux t (l ++ [y]) = dotIdxAux t l + ((t : ℚ) + (l.length : ℚ)) * y := by
  induction l generalizing t with
  | nil => simp [dotIdxAux]
  | cons x xs ih =>
    have h1 : dotIdxAux t ((x :: xs) ++ [y]) = (t : ℚ) * x + dotIdxAux (t + 1) (xs ++ [y]) := rfl
    have h2 : dotIdxAux t (x :: xs) = (t : ℚ) * x + dotIdxAux (t + 1) xs := rfl
    rw [h1, h2, ih (t + 1), List.length_cons]
    push_cast
    ring

/-- Sum of an affine series over `t = 0, …, n-1`. -/
theorem sum_linear (a b : ℚ) (n : ℕ) :
    ((List.range n).map (fun (i : ℕ) => a + b * (i : ℚ))).sum = (n : ℚ) * a + b * idxSum n := by
  induction n with
  | zero => simp [idxSum]
  | succ k ih =>
    unfold idxSum at ih ⊢
    rw [List.range_succ]
    simp only [List.map_append, List.sum_append, List.map_cons, List.map_nil,
      List.sum_cons, List.sum_nil]
    rw [ih]
    push_cast
    ring

/-- Index-weighted sum of an affine series over `t = 0, …, n-1`. -/
theorem dotIdx_linear (a b : ℚ) (n : ℕ) :
    dotIdx ((List.range n).map (fun (i : ℕ) => a + b * (i : ℚ))) =
      a * idxSum n + b * idxSqSum n := by
  induction n with
  | zero => simp [dotIdx, dotIdxAux, idxSum, idxSqSum]
  | succ k ih =>
    unfold dotIdx at ih ⊢
    unfold idxSum idxSqSum at ih ⊢
    rw [List.range_succ]
    simp only [List.map_append, List.sum_append, List.map_cons, List.map_nil,
      List.sum_cons, List.sum_nil]
    rw [dotIdxAux_append]
    simp only [List.length_map, List.length_range]
    rw [ih]
    push_cast
    ring

/-- The least-squares denominator n·Σt² − (Σt)² is positive for `n ≥ 2`. -/
theorem lsq_denom_pos (n : ℕ) (hn : 2 ≤ n) :
    0 < (n : ℚ) * idxSqSum n - (idxSum n) ^ 2 := by
  have hn2 : (2 : ℚ) ≤ (n : ℚ) := by exact_mod_cast hn
  rw [idxSum_eq, idxSqSum_eq]
  have h : (n : ℚ) * ((n : ℚ) * ((n : ℚ) - 1) * (2 * (n : ℚ) - 1) / 6) -
      ((n : ℚ) * ((n : ℚ) - 1) / 2) ^ 2 =
      (n : ℚ) ^ 2 * ((n : ℚ) - 1) * ((n : ℚ) + 1) / 12 := by ring
  rw [h]
  have h1 : (0 : ℚ) < (n : ℚ) ^ 2 := by nlinarith
  have h2 : (0 : ℚ) < (n : ℚ) - 1 := by linarith
  have h3 : (0 : ℚ) < (n : ℚ) + 1 := by linarith
  positivity

/-- `np.polyfit` on perfectly affine data recovers the exact slope and
intercept. -/
theorem polyfit1_linear (n : ℕ) (hn : 2 ≤ n) (a b : ℚ) :
    polyfit1 ((List.range n).map (fun (i : ℕ) => a + b * (i : ℚ))) = (b, a) := by
  have hn0 : (0 : ℚ) < (n : ℚ) := by
    have : (2 : ℚ) ≤ (n : ℚ) := by exact_mod_cast hn
    linarith
  have hD := lsq_denom_pos n hn
  unfold polyfit1
  simp only [List.length_map, List.length_range]
  rw [sum_linear, dotIdx_linear]
  have hslope : ((n : ℚ) * (a * idxSum n + b * idxSqSum n) -
      idxSum n * ((n : ℚ) * a + b * idxSum n)) /
      ((n : ℚ) * idxSqSum n - idxSum n ^ 2) = b := by
    rw [div_eq_iff (ne_of_gt hD)]
    ring
  rw [hslope]
  have hint : ((n : ℚ) * a + b * idxSum n - b * idxSum n) / (n : ℚ) = a := by
    rw [div_eq_iff (ne_of_gt hn0)]
    ring
  rw [hint]

/-- C5: the spend forecast buckets total spend by date collapsing the
platform split, computes a running cumulative sum, fits it by ordinary
least squares over the zero-based day index, and extrapolates exactly 15
consecutive future days past the last observed date; with fewer than 5
distinct days both forecast components are empty (no error, no fit), and a
perfectly linear cumulative series is continued with the same slope. -/
theorem forecast_spec :
    ∀ f : Frame,
      (∀ (d : ℤ) (q : ℚ), (d, q) ∈ dailySpend f ↔
        ((∃ tr ∈ getDailyTrends f, tr.date = d) ∧
         q = (((getDailyTrends f).filter (fun tr => tr.date = d)).map
              (fun tr => tr.agg.spend)).sum)) ∧
      ((cumsum ((dailySpend f).map Prod.snd)).length = (dailySpend f).length ∧
       ∀ (i : ℕ) (h : i < (cumsum ((dailySpend f).map Prod.snd)).length),
         (cumsum ((dailySpend f).map Prod.snd)).get ⟨i, h⟩ =
           (((dailySpend f).map Prod.snd).take (i + 1)).sum) ∧
      ((dailySpend f).length < 5 →
        (analyzeForecast f).2.1 = [] ∧ (analyzeForecast f).2.2 = [] ∧
        ∀ n, forecastSpend f n = []) ∧
      (5 ≤ (dailySpend f).length →
        (analyzeForecast f).2.1 =
          (List.range 15).map
            (fun (i : ℕ) => ((dailySpend f).map Prod.fst).getLastD 0 + (i : ℤ) + 1) ∧
        (analyzeForecast f).2.1.length = 15 ∧
        (analyzeForecast f).2.2.length = 15) ∧
      (∀ a b : ℚ, 5 ≤ (dailySpend f).length →
        cumsum ((dailySpend f).map Prod.snd) =
          (List.range (dailySpend f).length).map (fun (i : ℕ) => a + b * (i : ℚ)) →
        (analyzeForecast f).2.2 =
          (List.range 15).map
            (fun (i : ℕ) => a + b * (((dailySpend f).length : ℚ) + (i : ℚ)))) := by
  intro f
  have hTds : getDailyTrends f = [] → dailySpend f = [] := by
    intro h
    simp [dailySpend, h]
  refine ⟨?_, ⟨?_, ?_⟩, ?_, ?_, ?_⟩
  · intro d q
    unfold dailySpend
    rw [List.mem_map]
    constructor
    · rintro ⟨x, hx, hEq⟩
      rw [Prod.mk.injEq] at hEq
      obtain ⟨rfl, rfl⟩ := hEq
      rw [List.mem_insertionSort, List.mem_dedup, List.mem_map] at hx
      obtain ⟨tr, htr, rfl⟩ := hx
      exact ⟨⟨tr, htr, rfl⟩, rfl⟩
    · rintro ⟨⟨tr, htr, rfl⟩, rfl⟩
      refine ⟨tr.date, ?_, rfl⟩
      rw [List.mem_insertionSort, List.mem_dedup, List.mem_map]
      exact ⟨tr, htr, rfl⟩
  · simp [cumsum]
  · intro i h
    simp [cumsum]
  · intro hlt
    by_cases hT : (getDailyTrends f).isEmpty = true
    · rw [List.isEmpty_iff] at hT
      refine ⟨?_, ?_, ?_⟩ <;>
        simp [analyzeForecast, forecastSpend, hT, hTds hT]
    · unfold analyzeForecast forecastSpend
      refine ⟨?_, ?_, ?_⟩ <;> simp [hT, hlt]
  · intro hle
    have hT : ¬ ((getDailyTrends f).isEmpty = true) := by
      intro hT
      rw [List.isEmpty_iff] at hT
      rw [hTds hT] at hle
      simp at hle
    have hnlt : ¬ ((dailySpend f).length < 5) := not_lt.mpr hle
    unfold analyzeForecast
    simp only [hT, hnlt, if_false]
    refine ⟨rfl, by simp, by simp⟩
  · intro a b hle hlin
    have hT : ¬ ((getDailyTrends f).isEmpty = true) := by
      intro hT
      rw [List.isEmpty_iff] at hT
      rw [hTds hT] at hle
      simp at hle
    have hnlt : ¬ ((dailySpend f).length < 5) := not_lt.mpr hle
    unfold analyzeForecast
    simp only [hT, hnlt, if_false]
    rw [hlin, polyfit1_linear (dailySpend f).length (by omega) a b]
    refine List.map_congr_left ?_
    intro i _
    unfold polyval1
    push_cast
    ring

/-- One canonical row with a given date and spend (single platform-less
series). -/
def mkSpendRow (d : ℤ) (sp : ℚ) : Row :=
  ⟨some d, sp, 1, 1, 0, none, none, none, none, none, none, none, none, none⟩

/-- Five days of constant spend 10: the cumulative series is 10, 20, …, 50,
perfectly linear. -/
def frameC5 : Frame :=
  ⟨[mkSpendRow 1 10, mkSpendRow 2 10, mkSpendRow 3 10, mkSpendRow 4 10, mkSpendRow 5 10],
   true, false, false, false, false, false, false, false, false, false⟩

/-- Two days only: below the 5-day minimum. -/
def frameC5b : Frame :=
  ⟨[mkSpendRow 1 10, mkSpendRow 2 10],
   true, false, false, false, false, false, false, false, false, false⟩

/-- Witness for the forecast theorem at concrete inputs: on five days of
constant spend 10 the extrapolation continues the exact slope 10, and on
two days of history the forecast components are empty. -/
theorem forecast_spec_witness :
    (analyzeForecast frameC5).2.2 =
      (List.range 15).map
        (fun (i : ℕ) => 10 + 10 * (((dailySpend frameC5).length : ℚ) + (i : ℚ))) ∧
    (analyzeForecast frameC5b).2.1 = [] ∧ (analyzeForecast frameC5b).2.2 = [] := by
  have hds : dailySpend frameC5 = [(1, 10), (2, 10), (3, 10), (4, 10), (5, 10)] := by
    norm_num [dailySpend, getDailyTrends, frameC5, mkSpendRow, groupAgg, aggOf, sumBy,
      mkTrendRow, List.insertionSort, List.orderedInsert, List.dedup, Option.some_ne_none]
  have hds2 : (dailySpend frameC5b).length < 5 := by
    have : dailySpend frameC5b = [(1, 10), (2, 10)] := by
      norm_num [dailySpend, getDailyTrends, frameC5b, mkSpendRow, groupAgg, aggOf, sumBy,
        mkTrendRow, List.insertionSort, List.orderedInsert, List.dedup, Option.some_ne_none]
    rw [this]
    norm_num
  refine ⟨?_, ((forecast_spec frameC5b).2.2.1 hds2).1, ((forecast_spec frameC5b).2.2.1 hds2).2.1⟩
  refine (forecast_spec frameC5).2.2.2.2 10 10 (by rw [hds]; norm_num) ?_
  rw [hds]
  norm_num [cumsum, List.range, List.range.loop]

/-- The window, mean, standard deviation and bounds are all defined
together: `upperAt` is `some` exactly on a defined window. -/
theorem upperAt_eq_map (xs : List (Option ℚ)) (w i : ℕ) :
    upperAt xs w i = (windowAt xs w i).map (fun l =>
      ((l.sum / (l.length : ℚ) : ℚ) : ℝ) + 2 * Real.sqrt
        (((l.map (fun x => ((x : ℝ) - (l.sum : ℝ) / (l.length : ℝ)) ^ 2)).sum)
          / ((l.length : ℝ) - 1))) := by
  unfold upperAt rollingMeanAt rollingStdAt
  cases windowAt xs w i <;> simp

/-- Companion to `upperAt_eq_map` for the lower bound. -/
theorem lowerAt_eq_map (xs : List (Option ℚ)) (w i : ℕ) :
    lowerAt xs w i = (windowAt xs w i).map (fun l =>
      ((l.sum / (l.length : ℚ) : ℚ) : ℝ) - 2 * Real.sqrt
        (((l.map (fun x => ((x : ℝ) - (l.sum : ℝ) / (l.length : ℝ)) ^ 2)).sum)
          / ((l.length : ℝ) - 1))) := by
  unfold lowerAt rollingMeanAt rollingStdAt
  cases windowAt xs w i <;> simp

/-- C7: anomaly detection computes rolling mean and ddof-1 standard
deviation of the date-ordered CPC series over a trailing window (`w = 7`
by default), bounds = mean ± 2σ, and flags an anomaly exactly when CPC
exceeds the upper bound; with `w` fully-defined trailing observations the
bounds are defined, and with insufficient history they are `none` (not
zero) and nothing is flagged. -/
theorem anomaly_spec :
    ∀ (f : Frame) (w : ℕ), 2 ≤ w →
      (∀ (i : ℕ) (row : AnomalyRow), (detectCpcAnomalies f w).get? i = some row →
        row.upper = upperAt (cpcSeries f) w i ∧
        row.lower = lowerAt (cpcSeries f) w i ∧
        row.rollingMean = rollingMeanAt (cpcSeries f) w i ∧
        (row.anomaly ↔ isAnomalyAt (cpcSeries f) w i) ∧
        (cpcSeries f).get? i = some row.cpc) ∧
      (∀ (xs : List (Option ℚ)) (i : ℕ),
        (w ≤ i + 1 → ((xs.take (i + 1)).drop (i + 1 - w)).all Option.isSome = true →
          (upperAt xs w i).isSome = true ∧ (lowerAt xs w i).isSome = true ∧
          (rollingMeanAt xs w i).isSome = true) ∧
        (i + 1 < w →
          upperAt xs w i = none ∧ lowerAt xs w i = none ∧
          rollingMeanAt xs w i = none ∧ ¬ isAnomalyAt xs w i) ∧
        (isAnomalyAt xs w i ↔ ∃ c l, xs.get? i = some (some c) ∧
          windowAt xs w i = some l ∧
          ((l.sum / (l.length : ℚ) : ℚ) : ℝ) + 2 * Real.sqrt
            (((l.map (fun x => ((x : ℝ) - (l.sum : ℝ) / (l.length : ℝ)) ^ 2)).sum)
              / ((l.length : ℝ) - 1)) < (c : ℝ))) := by
  intro f w _hw
  constructor
  · intro i row hrow
    unfold detectCpcAnomalies at hrow
    rw [List.get?_map, List.get?_enum, Option.map_map, Option.map_eq_some'] at hrow
    obtain ⟨tr, hts, rfl⟩ := hrow
    refine ⟨rfl, rfl, rfl, Iff.rfl, ?_⟩
    unfold cpcSeries
    rw [List.get?_map, hts]
    rfl
  · intro xs i
    refine ⟨?_, ?_, ?_⟩
    · intro h1 h2
      have hw : windowAt xs w i =
          some ((xs.take (i + 1)).drop (i + 1 - w)).reduceOption := by
        unfold windowAt
        rw [if_pos ⟨h1, h2⟩]
      refine ⟨?_, ?_, ?_⟩
      · rw [upperAt_eq_map, hw]; rfl
      · rw [lowerAt_eq_map, hw]; rfl
      · unfold rollingMeanAt; rw [hw]; rfl
    · intro hlt
      have hw : windowAt xs w i = none := by
        unfold windowAt
        rw [if_neg]
        rintro ⟨h1, -⟩
        omega
      refine ⟨?_, ?_, ?_, ?_⟩
      · rw [upperAt_eq_map, hw]; rfl
      · rw [lowerAt_eq_map, hw]; rfl
      · unfold rollingMeanAt; rw [hw]; rfl
      · rintro ⟨c, u, -, hu, -⟩
        rw [upperAt_eq_map, hw] at hu
        simp at hu
    · constructor
      · rintro ⟨c, u, hc, hu, hlt⟩
        rw [upperAt_eq_map] at hu
        cases hwin : windowAt xs w i with
        | none => rw [hwin] at hu; simp at hu
        | some l =>
          rw [hwin] at hu
          simp only [Option.map_some', Option.some.injEq] at hu
          exact ⟨c, l, hc, rfl, hu ▸ hlt⟩
      · rintro ⟨c, l, hc, hwin, hlt⟩
        refine ⟨c, _, hc, ?_, hlt⟩
        rw [upperAt_eq_map, hwin]
        rfl

/-- Witness for the anomaly theorem at a concrete series: with window 7
over seven defined CPC values the bounds at index 6 are defined, while at
index 3 (insufficient history) they are `none` and no anomaly is flagged. -/
theorem anomaly_spec_witness :
    (upperAt [some 1, some 2, some 3, some 4, some 5, some 6, some (7 : ℚ)] 7 6).isSome
      = true ∧
    upperAt [some 1, some 2, some 3, some 4, some 5, some 6, some (7 : ℚ)] 7 3 = none ∧
    ¬ isAnomalyAt [some 1, some 2, some 3, some 4, some 5, some 6, some (7 : ℚ)] 7 3 := by
  have h := (anomaly_spec frameC5b 7 (by decide)).2
    [some 1, some 2, some 3, some 4, some 5, some 6, some (7 : ℚ)]
  exact ⟨((h 6).1 (by decide) (by decide)).1, ((h 3).2.1 (by decide)).1,
    ((h 3).2.1 (by decide)).2.2.2⟩

/-- Column lookup commutes with a name-preserving per-column transform. -/
theorem getColCells_map_transform (t : RawTable) (g : String × List Cell → List Cell)
    (nm : String) :
    getColCells (t.map (fun col => (col.1, g col))) nm =
      (t.find? (fun c => c.1 = nm)).map (fun col => g col) := by
  unfold getColCells
  rw [List.find?_map, Option.map_map]
  rfl

/-- Row filtering by the date mask keeps exactly the rows whose date
parsed (for a column aligned with the date column). -/
theorem filterMask_length (ps : List (Option ℤ)) (cells : List Cell)
    (h : cells.length = ps.length) :
    (filterMask (ps.map Option.isSome) cells).length = (ps.filterMap id).length := by
  induction ps generalizing cells with
  | nil =>
    rw [List.length_nil, List.length_eq_zero] at h
    subst h
    rfl
  | cons p ps ih =>
    cases cells with
    | nil => simp at h
    | cons c cs =>
      simp only [List.length_cons, Nat.succ.injEq] at h
      cases p with
      | none =>
        simp only [List.map_cons, Option.isSome_none, List.filterMap_cons]
        show (filterMask (false :: ps.map Option.isSome) (c :: cs)).length = _
        unfold filterMask
        simp only [List.zip_cons_cons, List.filter_cons]
        simp only [decide_False, Bool.false_eq_true, if_false]
        exact ih cs h
      | some d =>
        simp only [List.map_cons, Option.isSome_some, List.filterMap_cons]
        show (filterMask (true :: ps.map Option.isSome) (c :: cs)).length = _
        unfold filterMask
        simp only [List.zip_cons_cons, List.filter_cons]
        simp only [decide_True, if_true]
        simp only [List.map_cons, List.length_cons]
        exact congrArg Nat.succ (ih cs h)

/-- C6: during cleaning, every row whose `Date` fails to parse is dropped
from every column (so it is absent from the canonical table and from
everything derived from it), the surviving `Date` cells are exactly the
parsed dates, and a metric cell that fails to parse as a number becomes
`0.0` without dropping its row (aligned columns keep exactly one cell per
surviving row). -/
theorem clean_types_spec :
    ∀ (t : RawTable) (dcells : List Cell),
      getColCells t "Date" = some dcells →
      (getColCells (cleanTypesAndValues t) "Date" =
        some (((dcells.map parseDate).filterMap id).map Cell.date)) ∧
      (∀ c ∈ ((dcells.map parseDate).filterMap id).map Cell.date, ∃ d, c = Cell.date d) ∧
      (∀ nm cells, nm ≠ "Date" → t.find? (fun c => c.1 = nm) = some (nm, cells) →
        getColCells (cleanTypesAndValues t) nm =
          some (if nm ∈ METRIC_COLUMNS
            then (filterMask ((dcells.map parseDate).map Option.isSome) cells).map coerceMetric
            else filterMask ((dcells.map parseDate).map Option.isSome) cells)) ∧
      (∀ c : Cell, coerceMetric c = Cell.num ((parseNum c).getD 0)) ∧
      (∀ nm cells, nm ≠ "Date" → t.find? (fun c => c.1 = nm) = some (nm, cells) →
        cells.length = dcells.length →
        ∃ cells', getColCells (cleanTypesAndValues t) nm = some cells' ∧
          cells'.length = ((dcells.map parseDate).filterMap id).length) := by
  intro t dcells hD
  obtain ⟨dcol, hfind, hsnd⟩ := Option.map_eq_some'.mp hD
  have hfst : dcol.1 = "Date" := by
    have := List.find?_some hfind
    simpa using this
  have hmain : cleanTypesAndValues t =
      t.map (fun col =>
        (col.1,
          (fun (v : List Cell) => if col.1 ∈ METRIC_COLUMNS then v.map coerceMetric else v)
          (if col.1 = "Date" then ((dcells.map parseDate).filterMap id).map Cell.date
           else filterMask ((dcells.map parseDate).map Option.isSome) col.2))) := by
    unfold cleanTypesAndValues
    rw [hD]
    rw [List.map_map]
    rfl
  have hlook : ∀ nm, getColCells (cleanTypesAndValues t) nm =
      (t.find? (fun c => c.1 = nm)).map (fun col =>
        (fun (v : List Cell) => if col.1 ∈ METRIC_COLUMNS then v.map coerceMetric else v)
        (if col.1 = "Date" then ((dcells.map parseDate).filterMap id).map Cell.date
         else filterMask ((dcells.map parseDate).map Option.isSome) col.2)) := by
    intro nm
    rw [hmain]
    exact getColCells_map_transform t _ nm
  refine ⟨?_, ?_, ?_, ?_, ?_⟩
  · rw [hlook "Date", hfind]
    simp only [Option.map_some', hfst]
    have hnm : ¬ ("Date" ∈ METRIC_COLUMNS) := by decide
    simp [hnm]
  · intro c hc
    rw [List.mem_map] at hc
    obtain ⟨d, _, rfl⟩ := hc
    exact ⟨d, rfl⟩
  · intro nm cells hnm hfindnm
    rw [hlook nm, hfindnm]
    simp only [Option.map_some', if_neg hnm]
  · intro c
    cases c <;> rfl
  · intro nm cells hnm hfindnm hlen
    have hlen2 : cells.length = (dcells.map parseDate).length := by
      rw [List.length_map]
      exact hlen
    refine ⟨if nm ∈ METRIC_COLUMNS
        then (filterMask ((dcells.map parseDate).map Option.isSome) cells).map coerceMetric
        else filterMask ((dcells.map parseDate).map Option.isSome) cells, ?_, ?_⟩
    · rw [hlook nm, hfindnm]
      simp only [Option.map_some', if_neg hnm]
    · split
      · rw [List.length_map]
        exact filterMask_length (dcells.map parseDate) cells hlen2
      · exact filterMask_length (dcells.map parseDate) cells hlen2

/-- A three-row raw table: row 2 has an unparseable date, row 3 an
unparseable `Spend` value. -/
def tC6 : RawTable :=
  [("Date", [Cell.date 1, Cell.str "oops", Cell.date 3]),
   ("Spend", [Cell.num 5, Cell.str "bad", Cell.str "x"]),
   ("Campaign", [Cell.str "A", Cell.str "B", Cell.str "C"])]

/-- Witness for the cleaning theorem at a concrete table: the row with the
unparseable date vanishes from every column, while the row with the
unparseable `Spend` survives with the value replaced by `0.0`. -/
theorem clean_types_spec_witness :
    getColCells (cleanTypesAndValues tC6) "Date" = some [Cell.date 1, Cell.date 3] ∧
    getColCells (cleanTypesAndValues tC6) "Spend" = some [Cell.num 5, Cell.num 0] ∧
    getColCells (cleanTypesAndValues tC6) "Campaign" =
      some [Cell.str "A", Cell.str "C"] := by
  have h := clean_types_spec tC6 [Cell.date 1, Cell.str "oops", Cell.date 3] (by rfl)
  refine ⟨?_, ?_, ?_⟩
  · rw [h.1]
    rfl
  · rw [h.2.2.1 "Spend" [Cell.num 5, Cell.str "bad", Cell.str "x"] (by decide) (by rfl)]
    rfl
  · rw [h.2.2.1 "Campaign" [Cell.str "A", Cell.str "B", Cell.str "C"] (by decide) (by rfl)]
    rfl

/-!
## Column-reconciliation lemmas
-/

/-- `find?` only depends on the predicate's values on the list. -/
theorem findPredCongr {α : Type} {p q : α → Bool} :
    ∀ {l : List α}, (∀ a ∈ l, p a = q a) → l.find? p = l.find? q
  | [], _ => rfl
  | a :: l, h => by
    have ha := h a (List.mem_cons_self a l)
    by_cases hp : p a = true
    · rw [List.find?_cons_of_pos _ hp, List.find?_cons_of_pos _ (ha ▸ hp)]
    · rw [List.find?_cons_of_neg _ hp,
        List.find?_cons_of_neg _ (by rw [← ha]; exact hp),
        findPredCongr (fun a ha => h a (List.mem_cons_of_mem _ ha))]

/-- Every entry of a dict after insertion is an old entry or the new one. -/
theorem mem_dictInsert {m : List (String × String)} {k v : String} {e : String × String}
    (he : e ∈ dictInsert m k v) : e ∈ m ∨ e = (k, v) := by
  unfold dictInsert at he
  split at he
  · rw [List.mem_map] at he
    obtain ⟨p, hp, hEq⟩ := he
    by_cases hk : p.1 = k
    · rw [if_pos hk] at hEq
      exact Or.inr hEq.symm
    · rw [if_neg hk] at hEq
      exact Or.inl (hEq ▸ hp)
  · rw [List.mem_append] at he
    rcases he with h | h
    · exact Or.inl h
    · simp at h
      exact Or.inr (by rw [h])

/-- Inserting under a different key does not change a key's lookup. -/
theorem dictInsert_find?_ne {m : List (String × String)} {k v orig : String}
    (hk : k ≠ orig) :
    (dictInsert m k v).find? (fun p => p.1 = orig) = m.find? (fun p => p.1 = orig) := by
  unfold dictInsert
  split
  · rw [List.find?_map]
    have hcong : ∀ p ∈ m,
        ((fun p : String × String => decide (p.1 = orig)) ∘
          (fun p => if p.1 = k then (k, v) else p)) p =
        (fun p : String × String => decide (p.1 = orig)) p := by
      intro p _
      by_cases hpk : p.1 = k
      · simp only [Function.comp, if_pos hpk]
        rw [hpk]
      · simp only [Function.comp, if_neg hpk]
    rw [findPredCongr hcong]
    cases hf : m.find? (fun p => p.1 = orig) with
    | none => rfl
    | some p =>
      have hp1 : p.1 = orig := by simpa using List.find?_some hf
      have hpk : ¬ (p.1 = k) := by rw [hp1]; exact fun h => hk h.symm
      simp only [Option.map_some', if_neg hpk]
  · rw [List.find?_append]
    cases hf : m.find? (fun p => p.1 = orig) with
    | none =>
      simp only [Option.none_or]
      rw [List.find?_cons_of_neg _ (by simpa using hk)]
      rfl
    | some p => rfl

/-- Inserting a fresh key makes its lookup return the new entry. -/
theorem dictInsert_find?_self {m : List (String × String)} {k v : String}
    (hnone : m.find? (fun p => p.1 = k) = none) :
    (dictInsert m k v).find? (fun p => p.1 = k) = some (k, v) := by
  have hany : ¬ (m.any (fun p => p.1 = k) = true) := by
    rw [List.any_eq_true]
    rintro ⟨p, hp, hpk⟩
    rw [List.find?_eq_none] at hnone
    exact absurd hpk (by simpa using hnone p hp)
  unfold dictInsert
  rw [if_neg hany, List.find?_append, hnone]
  simp

/-- Soundness of the rename map: every recorded entry `orig ↦ v` comes from
a canonical field `v` that is absent from the columns and whose alias scan
found `orig`. -/
theorem brm_sound (cols : List String) :
    ∀ (l : List (String × List String)) (m : List (String × String)),
      (∀ e ∈ m, ∃ cm ∈ COLUMN_MAPPING, cm.1 = e.2 ∧ ¬ (cm.1 ∈ cols) ∧
        findAliasMatch cols cm.2 = some e.1) →
      (∀ cm' ∈ l, cm' ∈ COLUMN_MAPPING) →
      ∀ e ∈ l.foldl (brmStep cols) m,
        ∃ cm ∈ COLUMN_MAPPING, cm.1 = e.2 ∧ ¬ (cm.1 ∈ cols) ∧
          findAliasMatch cols cm.2 = some e.1 := by
  intro l
  induction l with
  | nil => intro m hm _ e he; exact hm e he
  | cons cm' l ih =>
    intro m hm hl e he
    rw [List.foldl_cons] at he
    refine ih (brmStep cols m cm') ?_ (fun x hx => hl x (List.mem_cons_of_mem _ hx)) e he
    intro e' he'
    unfold brmStep at he'
    split at he'
    · exact hm e' he'
    · rename_i hnincols
      cases hmatch : findAliasMatch cols cm'.2 with
      | none => rw [hmatch] at he'; exact hm e' he'
      | some orig =>
        rw [hmatch] at he'
        rcases mem_dictInsert he' with h | h
        · exact hm e' h
        · subst h
          exact ⟨cm', hl cm' (List.mem_cons_self _ _), rfl, hnincols, hmatch⟩

/-- Folding steps that never touch the key `orig` leaves its lookup
unchanged. -/
theorem brm_preserve (cols : List String) (orig : String) :
    ∀ (l : List (String × List String)) (m : List (String × String)),
      (∀ cm' ∈ l, cm'.1 ∈ cols ∨ findAliasMatch cols cm'.2 = none ∨
        ∀ res, findAliasMatch cols cm'.2 = some res → res ≠ orig) →
      (l.foldl (brmStep cols) m).find? (fun p => p.1 = orig) =
        m.find? (fun p => p.1 = orig) := by
  intro l
  induction l with
  | nil => intro m _; rfl
  | cons cm' l ih =>
    intro m hl
    rw [List.foldl_cons, ih _ (fun x hx => hl x (List.mem_cons_of_mem _ hx))]
    unfold brmStep
    rcases hl cm' (List.mem_cons_self _ _) with h | h | h
    · rw [if_pos h]
    · split
      · rfl
      · rw [h]
    · split
      · rfl
      · cases hmatch : findAliasMatch cols cm'.2 with
        | none => rfl
        | some res => exact dictInsert_find?_ne (h res hmatch)

/-- The alias scan returns an existing column whose lower-cased name equals
some candidate alias's lower-cased form (case-insensitive exact-token
matching, no fuzzy matching). -/
theorem findAliasMatch_spec (cols : List String) :
    ∀ (cands : List String) (orig : String),
      findAliasMatch cols cands = some orig →
      orig ∈ cols ∧ ∃ cand ∈ cands, lowerStr orig = lowerStr cand := by
  intro cands
  induction cands with
  | nil => intro orig h; exact absurd h (by simp [findAliasMatch])
  | cons cand rest ih =>
    intro orig h
    unfold findAliasMatch at h
    cases hlook : lowerToOriginal cols (lowerStr cand) with
    | none =>
      rw [hlook] at h
      obtain ⟨h1, cand', hc1, hc2⟩ := ih orig h
      exact ⟨h1, cand', List.mem_cons_of_mem _ hc1, hc2⟩
    | some o =>
      rw [hlook] at h
      obtain rfl : o = orig := by simpa using h
      unfold lowerToOriginal at hlook
      have hmem := List.mem_of_getLast?_eq_some hlook
      rw [List.mem_filter] at hmem
      exact ⟨hmem.1, cand, List.mem_cons_self _ _, by simpa using hmem.2⟩

/-- Canonical field names are pairwise distinct. -/
theorem cmKeysNodup : (COLUMN_MAPPING.map Prod.fst).Nodup := by decide

/-- No canonical name lower-cases to an alias of a *different* canonical
field (so a column bearing a canonical name can never be claimed by
another field's alias scan). -/
theorem cmAliasDisjoint : ∀ cm ∈ COLUMN_MAPPING, ∀ c ∈ CANONICAL_COLUMNS,
    cm.1 ≠ c → ∀ cand ∈ cm.2, lowerStr c ≠ lowerStr cand := by decide

/-- Two mapping entries with the same canonical name are the same entry. -/
theorem cmKeysInj : ∀ {a b : String × List String}, a ∈ COLUMN_MAPPING →
    b ∈ COLUMN_MAPPING → a.1 = b.1 → a = b := by
  have h : ∀ (l : List (String × List String)), (l.map Prod.fst).Nodup →
      ∀ {a b : String × List String}, a ∈ l → b ∈ l → a.1 = b.1 → a = b := by
    intro l
    induction l with
    | nil => intro _ a b ha; simp at ha
    | cons x l ih =>
      intro hnd a b ha hb hab
      rw [List.map_cons, List.nodup_cons] at hnd
      rcases List.mem_cons.mp ha with rfl | ha' <;>
        rcases List.mem_cons.mp hb with rfl | hb'
      · rfl
      · exact absurd (hab ▸ List.mem_map_of_mem Prod.fst hb') hnd.1
      · exact absurd (hab ▸ List.mem_map_of_mem Prod.fst ha') hnd.1
      · exact ih hnd.2 ha' hb' hab
  intro a b ha hb hab
  exact h COLUMN_MAPPING cmKeysNodup ha hb hab

/-- A column lookup succeeds exactly when the name is among the columns. -/
theorem getColCells_isSome_iff (t : RawTable) (c : String) :
    (getColCells t c).isSome = true ↔ c ∈ colNames t := by
  unfold getColCells colNames
  cases hf : t.find? (fun col => col.1 = c) with
  | none =>
    rw [List.find?_eq_none] at hf
    simp only [Option.map_none', Option.isSome_none, Bool.false_eq_true, false_iff]
    rw [List.mem_map]
    rintro ⟨col, hcol, rfl⟩
    exact absurd (by simp) (hf col hcol)
  | some col =>
    have h1 : col.1 = c := by simpa using List.find?_some hf
    simp only [Option.map_some', Option.isSome_some, true_iff]
    rw [List.mem_map]
    exact ⟨col, List.mem_of_find?_eq_some hf, h1⟩

/-- Lookup of an absent column is `none`. -/
theorem getColCells_eq_none {t : RawTable} {c : String} (h : ¬ c ∈ colNames t) :
    getColCells t c = none := by
  cases hg : getColCells t c with
  | none => rfl
  | some v =>
    exact absurd ((getColCells_isSome_iff t c).mp (by rw [hg]; rfl)) h

/-- Renaming lookup: when `c` is the image of exactly the columns named
`orig`, looking up `c` after the rename is looking up `orig` before it. -/
theorem getColCells_rename_gen (m : List (String × String)) (t : RawTable)
    (c orig : String)
    (h1 : ∀ x ∈ colNames t, (applyRename m x = c ↔ x = orig)) :
    getColCells (t.map (fun col => (applyRename m col.1, col.2))) c =
      getColCells t orig := by
  induction t with
  | nil => rfl
  | cons col t ih =>
    have hcol := h1 col.1 (by rw [colNames, List.map_cons]; exact List.mem_cons_self _ _)
    have htail : ∀ x ∈ colNames t, (applyRename m x = c ↔ x = orig) := by
      intro x hx
      exact h1 x (by rw [colNames, List.map_cons]; exact List.mem_cons_of_mem _ hx)
    by_cases hc : applyRename m col.1 = c
    · show ((((col.1, col.2).1 |> applyRename m, col.2) ::
        t.map (fun col => (applyRename m col.1, col.2))).find?
          (fun p => p.1 = c)).map Prod.snd = _
      rw [List.find?_cons_of_pos _ (by simpa using hc)]
      show some col.2 = getColCells (col :: t) orig
      unfold getColCells
      rw [List.find?_cons_of_pos _ (by simpa using hcol.mp hc)]
      rfl
    · show getColCells (((applyRename m col.1, col.2) ::
        t.map (fun col => (applyRename m col.1, col.2)))) c = _
      unfold getColCells
      rw [List.find?_cons_of_neg _ (by simpa using hc),
          List.find?_cons_of_neg _ (by simpa using fun h => hc (hcol.mpr h))]
      exact ih htail

/-- The column names after renaming are the renamed original names. -/
theorem colNames_rename (t : RawTable) :
    colNames (renameColumns t) =
      (colNames t).map (applyRename (buildRenameMap (colNames t))) := by
  unfold renameColumns colNames
  rw [List.map_map, List.map_map]
  rfl

/-- Renaming does not change the row count. -/
theorem nrows_rename (t : RawTable) : nrows (renameColumns t) = nrows t := by
  cases t <;> rfl

/-- Default-filling preserves an existing column's cells. -/
theorem amc_preserve (l : List String) :
    ∀ (acc : RawTable) (c : String) (v : List Cell),
      getColCells acc c = some v → getColCells (l.foldl amcStep acc) c = some v := by
  induction l with
  | nil => intro acc c v h; exact h
  | cons c' l ih =>
    intro acc c v h
    rw [List.foldl_cons]
    refine ih _ c v ?_
    unfold amcStep
    split
    · exact h
    · obtain ⟨col, hfind, hsnd⟩ := Option.map_eq_some'.mp h
      unfold getColCells
      rw [List.find?_append, hfind]
      simp [hsnd]

/-- Default-filling preserves the row count. -/
theorem amc_nrows (l : List String) :
    ∀ acc : RawTable, nrows (l.foldl amcStep acc) = nrows acc := by
  induction l with
  | nil => intro _; rfl
  | cons c' l ih =>
    intro acc
    rw [List.foldl_cons, ih]
    unfold amcStep
    split
    · rfl
    · cases acc with
      | nil => rfl
      | cons col rest => rfl

/-- Default-filling only adds column names. -/
theorem amc_names_mono (l : List String) :
    ∀ (acc : RawTable) (c : String),
      c ∈ colNames acc → c ∈ colNames (l.foldl amcStep acc) := by
  induction l with
  | nil => intro _ _ h; exact h
  | cons c' l ih =>
    intro acc c h
    rw [List.foldl_cons]
    refine ih _ c ?_
    unfold amcStep
    split
    · exact h
    · rw [colNames, List.map_append, List.mem_append]
      exact Or.inl h

/-- Every processed canonical name ends up among the columns. -/
theorem amc_mem (l : List String) :
    ∀ (acc : RawTable) (c : String), c ∈ l → c ∈ colNames (l.foldl amcStep acc) := by
  induction l with
  | nil => intro _ c h; exact absurd h (List.not_mem_nil c)
  | cons c' l ih =>
    intro acc c h
    rw [List.foldl_cons]
    rcases List.mem_cons.mp h with rfl | h'
    · refine amc_names_mono l _ c ?_
      unfold amcStep
      split
      · assumption
      · rw [colNames, List.map_append, List.mem_append]
        right
        simp
    · exact ih _ c h'

/-- A missing canonical column is synthesized with its default value,
replicated once per row of the accumulator. -/
theorem amc_create (l : List String) :
    ∀ (acc : RawTable) (c : String), l.Nodup → c ∈ l → ¬ c ∈ colNames acc →
      getColCells (l.foldl amcStep acc) c =
        some (List.replicate (nrows acc) (defaultCell c)) := by
  induction l with
  | nil => intro _ c _ h; exact absurd h (List.not_mem_nil c)
  | cons c' l ih =>
    intro acc c hnd h hnin
    rw [List.nodup_cons] at hnd
    rw [List.foldl_cons]
    rcases List.mem_cons.mp h with rfl | h'
    · refine amc_preserve l _ c _ ?_
      unfold amcStep
      rw [if_neg hnin]
      unfold getColCells
      rw [List.find?_append,
        List.find?_eq_none.mpr (fun col hcol => ?_), Option.none_or]
      · rw [List.find?_cons_of_pos _ (by simp)]
        rfl
      · simp only [decide_eq_true_eq]
        intro hcc
        exact hnin (by rw [colNames, List.mem_map]; exact ⟨col, hcol, hcc⟩)
    · have hne : c ≠ c' := fun hEq => hnd.1 (hEq ▸ h')
      have hnin' : ¬ c ∈ colNames (amcStep acc c') := by
        unfold amcStep
        split
        · exact hnin
        · rw [colNames, List.map_append, List.mem_append]
          rintro (hl | hr)
          · exact hnin hl
          · simp at hr
            exact hne hr
      have hnr : nrows (amcStep acc c') = nrows acc := by
        unfold amcStep
        split
        · rfl
        · cases acc <;> rfl
      rw [← hnr]
      exact ih _ c hnd.2 h' hnin'

/-- The canonical column names are pairwise distinct. -/
theorem canonicalNodup : CANONICAL_COLUMNS.Nodup := by decide

/-- Lookup of the rename map at the matched original column: the entry
recorded for a canonical field absent from the columns survives to the end
provided no other canonical field's scan claimed the same original. -/
theorem brm_lookup (cols : List String) (cm : String × List String) (orig : String)
    (hcm : cm ∈ COLUMN_MAPPING) (hno : ¬ (cm.1 ∈ cols))
    (hmatch : findAliasMatch cols cm.2 = some orig)
    (huniq : ∀ cm' ∈ COLUMN_MAPPING, cm'.1 ≠ cm.1 → ¬ (cm'.1 ∈ cols) →
      findAliasMatch cols cm'.2 ≠ some orig) :
    (buildRenameMap cols).find? (fun p => p.1 = orig) = some (orig, cm.1) := by
  obtain ⟨pre, post, hsplit⟩ := List.append_of_mem hcm
  have hnd : ((pre ++ cm :: post).map Prod.fst).Nodup := by
    rw [← hsplit]; exact cmKeysNodup
  rw [List.map_append, List.nodup_append] at hnd
  have hmempre : ∀ x ∈ pre, x ∈ COLUMN_MAPPING := by
    intro x hx; rw [hsplit, List.mem_append]; exact Or.inl hx
  have hmempost : ∀ x ∈ post, x ∈ COLUMN_MAPPING := by
    intro x hx
    rw [hsplit, List.mem_append, List.mem_cons]
    exact Or.inr (Or.inr hx)
  have hprene : ∀ x ∈ pre, x.1 ≠ cm.1 := by
    intro x hx hEq
    exact hnd.2.2 (List.mem_map_of_mem Prod.fst hx)
      (by rw [List.map_cons, hEq]; exact List.mem_cons_self _ _)
  have hpostne : ∀ x ∈ post, x.1 ≠ cm.1 := by
    intro x hx hEq
    have := hnd.2.1
    rw [List.map_cons, List.nodup_cons] at this
    exact this.1 (hEq ▸ List.mem_map_of_mem Prod.fst hx)
  have hcond : ∀ (l : List (String × List String)), (∀ x ∈ l, x ∈ COLUMN_MAPPING) →
      (∀ x ∈ l, x.1 ≠ cm.1) →
      ∀ cm' ∈ l, cm'.1 ∈ cols ∨ findAliasMatch cols cm'.2 = none ∨
        ∀ res, findAliasMatch cols cm'.2 = some res → res ≠ orig := by
    intro l hl hlne cm' hcm'
    by_cases h1 : cm'.1 ∈ cols
    · exact Or.inl h1
    · right; right
      intro res hres hEq
      exact huniq cm' (hl cm' hcm') (hlne cm' hcm') h1 (hEq ▸ hres)
  unfold buildRenameMap
  rw [hsplit, List.foldl_append, List.foldl_cons]
  have hpre : (pre.foldl (brmStep cols) []).find? (fun p => p.1 = orig) = none := by
    rw [brm_preserve cols orig pre [] (hcond pre hmempre hprene)]
    rfl
  have hstep : (brmStep cols (pre.foldl (brmStep cols) []) cm).find?
      (fun p => p.1 = orig) = some (orig, cm.1) := by
    unfold brmStep
    rw [if_neg hno, hmatch]
    exact dictInsert_find?_self hpre
  rw [brm_preserve cols orig post _ (hcond post hmempost hpostne), hstep]

/-- Any rename-map entry whose value is the canonical field `cm.1` records
the (unique) original column found by `cm`'s own alias scan. -/
theorem brm_value_unique (cols : List String) (cm : String × List String)
    (hcm : cm ∈ COLUMN_MAPPING) :
    ∀ e ∈ buildRenameMap cols, e.2 = cm.1 → findAliasMatch cols cm.2 = some e.1 := by
  intro e he hev
  obtain ⟨cm', hcm', hfst, _, hmatch⟩ :=
    brm_sound cols COLUMN_MAPPING [] (fun e he => absurd he (List.not_mem_nil e))
      (fun x hx => hx) e he
  have : cm' = cm := cmKeysInj hcm' hcm (by rw [hfst, hev])
  exact this ▸ hmatch

/-- Rename-map values are canonical fields absent from the columns. -/
theorem brm_value_absent (cols : List String) :
    ∀ e ∈ buildRenameMap cols, e.2 ∈ CANONICAL_COLUMNS ∧ ¬ (e.2 ∈ cols) := by
  intro e he
  obtain ⟨cm', hcm', hfst, hnin, _⟩ :=
    brm_sound cols COLUMN_MAPPING [] (fun e he => absurd he (List.not_mem_nil e))
      (fun x hx => hx) e he
  exact ⟨hfst ▸ List.mem_map_of_mem Prod.fst hcm', hfst ▸ hnin⟩

/-- C3: after column reconciliation every canonical column exists; a column
already bearing the exact canonical name is used as-is; otherwise the
original column found by the case-insensitive exact-token alias scan is
renamed to the canonical name (provided no other canonical field's scan
claimed the same original — true of the shipped alias table); matching is
case-insensitive and exact-token; and a canonical field with no match is
synthesized with its default: `0.0` for metric fields, null for the
rest. -/
theorem reconcile_columns_spec :
    (∀ t : RawTable, ∀ c ∈ CANONICAL_COLUMNS, c ∈ colNames (reconcileColumns t)) ∧
    (∀ t : RawTable, ∀ c ∈ CANONICAL_COLUMNS, c ∈ colNames t →
      getColCells (reconcileColumns t) c = getColCells t c) ∧
    (∀ (t : RawTable) (cm : String × List String) (orig : String),
      cm ∈ COLUMN_MAPPING →
      ¬ (cm.1 ∈ colNames t) → findAliasMatch (colNames t) cm.2 = some orig →
      (∀ cm' ∈ COLUMN_MAPPING, cm'.1 ≠ cm.1 → ¬ (cm'.1 ∈ colNames t) →
        findAliasMatch (colNames t) cm'.2 ≠ some orig) →
      getColCells (reconcileColumns t) cm.1 = getColCells t orig) ∧
    (∀ (cols cands : List String) (orig : String),
      findAliasMatch cols cands = some orig →
      orig ∈ cols ∧ ∃ cand ∈ cands, lowerStr orig = lowerStr cand) ∧
    (∀ (t : RawTable) (cm : String × List String), cm ∈ COLUMN_MAPPING →
      ¬ (cm.1 ∈ colNames t) → findAliasMatch (colNames t) cm.2 = none →
      getColCells (reconcileColumns t) cm.1 =
        some (List.replicate (nrows t) (defaultCell cm.1))) ∧
    (∀ c, c ∈ METRIC_COLUMNS → defaultCell c = Cell.num 0) ∧
    (∀ c, ¬ (c ∈ METRIC_COLUMNS) → defaultCell c = Cell.null) := by
  refine ⟨?_, ?_, ?_, findAliasMatch_spec, ?_, ?_, ?_⟩
  · intro t c hc
    exact amc_mem CANONICAL_COLUMNS (renameColumns t) c hc
  · intro t c hc hin
    have h1 : ∀ x ∈ colNames t,
        (applyRename (buildRenameMap (colNames t)) x = c ↔ x = c) := by
      intro x hx
      constructor
      · intro h
        unfold applyRename at h
        cases hf : (buildRenameMap (colNames t)).find? (fun p => p.1 = x) with
        | none => rw [hf] at h; exact h
        | some p =>
          rw [hf] at h
          have h2 : p.2 = c := h
          have hp := brm_value_absent (colNames t) p (List.mem_of_find?_eq_some hf)
          exact absurd (h2 ▸ hin) hp.2
      · rintro rfl
        unfold applyRename
        cases hf : (buildRenameMap (colNames t)).find? (fun p => p.1 = x) with
        | none => rfl
        | some p =>
          obtain ⟨cm', hcm', hfst, hnin, hmatch⟩ :=
            brm_sound (colNames t) COLUMN_MAPPING []
              (fun e he => absurd he (List.not_mem_nil e)) (fun y hy => hy)
              p (List.mem_of_find?_eq_some hf)
          have hp1 : p.1 = x := by simpa using List.find?_some hf
          rw [hp1] at hmatch
          obtain ⟨_, cand, hcand, hlow⟩ := findAliasMatch_spec _ _ _ hmatch
          have hne : cm'.1 ≠ x := fun hEq => hnin (hEq ▸ hin)
          exact absurd hlow (cmAliasDisjoint cm' hcm' x hc hne cand hcand)
    have hren : getColCells (renameColumns t) c = getColCells t c :=
      getColCells_rename_gen (buildRenameMap (colNames t)) t c c h1
    obtain ⟨v, hv⟩ := Option.isSome_iff_exists.mp ((getColCells_isSome_iff t c).mpr hin)
    show getColCells (CANONICAL_COLUMNS.foldl amcStep (renameColumns t)) c = _
    rw [amc_preserve CANONICAL_COLUMNS (renameColumns t) c v (by rw [hren, hv]), hv]
  · intro t cm orig hcm hno hmatch huniq
    have hlookup := brm_lookup (colNames t) cm orig hcm hno hmatch huniq
    have h1 : ∀ x ∈ colNames t,
        (applyRename (buildRenameMap (colNames t)) x = cm.1 ↔ x = orig) := by
      intro x hx
      constructor
      · intro h
        unfold applyRename at h
        cases hf : (buildRenameMap (colNames t)).find? (fun p => p.1 = x) with
        | none =>
          rw [hf] at h
          have h2 : x = cm.1 := h
          exact absurd (h2 ▸ hx) hno
        | some p =>
          rw [hf] at h
          have h2 : p.2 = cm.1 := h
          have huv := brm_value_unique (colNames t) cm hcm p
            (List.mem_of_find?_eq_some hf) h2
          rw [hmatch] at huv
          have hp1 : p.1 = x := by simpa using List.find?_some hf
          rw [hp1] at huv
          exact (Option.some.injEq _ _ ▸ huv).symm
      · rintro rfl
        unfold applyRename
        rw [hlookup]
    have hren : getColCells (renameColumns t) cm.1 = getColCells t orig :=
      getColCells_rename_gen (buildRenameMap (colNames t)) t cm.1 orig h1
    have hinorig : orig ∈ colNames t := (findAliasMatch_spec _ _ _ hmatch).1
    obtain ⟨v, hv⟩ :=
      Option.isSome_iff_exists.mp ((getColCells_isSome_iff t orig).mpr hinorig)
    show getColCells (CANONICAL_COLUMNS.foldl amcStep (renameColumns t)) cm.1 = _
    rw [amc_preserve CANONICAL_COLUMNS (renameColumns t) cm.1 v (by rw [hren, hv]), hv]
  · intro t cm hcm hno hnone
    have hnin : ¬ cm.1 ∈ colNames (renameColumns t) := by
      rw [colNames_rename, List.mem_map]
      rintro ⟨x, hx, hax⟩
      unfold applyRename at hax
      cases hf : (buildRenameMap (colNames t)).find? (fun p => p.1 = x) with
      | none =>
        rw [hf] at hax
        have hax2 : x = cm.1 := hax
        exact hno (hax2 ▸ hx)
      | some p =>
        rw [hf] at hax
        have hax2 : p.2 = cm.1 := hax
        have huv := brm_value_unique (colNames t) cm hcm p
          (List.mem_of_find?_eq_some hf) hax2
        rw [hnone] at huv
        exact Option.noConfusion huv
    have := amc_create CANONICAL_COLUMNS (renameColumns t) cm.1 canonicalNodup
      (List.mem_map_of_mem Prod.fst hcm) hnin
    rw [nrows_rename] at this
    exact this
  · intro c h
    unfold defaultCell
    rw [if_pos h]
  · intro c h
    unfold defaultCell
    rw [if_neg h]

/-- Witness for the reconciliation theorem at concrete tables: the source
columns "Amount Spent" and "AMOUNT SPENT" (in their own tables) both map to
canonical `Spend`; a missing metric column (`Clicks`) is synthesized as
`0.0` per row and a missing dimensional column (`Campaign`) as null. -/
theorem reconcile_columns_spec_witness :
    getColCells (reconcileColumns [("Amount Spent", [Cell.num 3])]) "Spend" =
      some [Cell.num 3] ∧
    getColCells (reconcileColumns [("AMOUNT SPENT", [Cell.num 4])]) "Spend" =
      some [Cell.num 4] ∧
    getColCells (reconcileColumns [("Amount Spent", [Cell.num 3])]) "Clicks" =
      some [Cell.num 0] ∧
    getColCells (reconcileColumns [("Amount Spent", [Cell.num 3])]) "Campaign" =
      some [Cell.null] := by
  refine ⟨?_, ?_, ?_, ?_⟩
  · exact (reconcile_columns_spec.2.2.1 [("Amount Spent", [Cell.num 3])]
      ("Spend", ["amount spent", "cost", "total spent", "spend", "harcama", "tutar"])
      "Amount Spent" (by decide) (by decide) (by decide) (by decide)).trans rfl
  · exact (reconcile_columns_spec.2.2.1 [("AMOUNT SPENT", [Cell.num 4])]
      ("Spend", ["amount spent", "cost", "total spent", "spend", "harcama", "tutar"])
      "AMOUNT SPENT" (by decide) (by decide) (by decide) (by decide)).trans rfl
  · exact (reconcile_columns_spec.2.2.2.2.1 [("Amount Spent", [Cell.num 3])]
      ("Clicks", ["clicks", "link clicks", "tiklama", "tiklamalar", "click"])
      (by decide) (by decide) (by decide)).trans (by decide)
  · exact (reconcile_columns_spec.2.2.2.2.1 [("Amount Spent", [Cell.num 3])]
      ("Campaign", ["campaign name", "kampanya adi", "campaign", "kampanya"])
      (by decide) (by decide) (by decide)).trans (by decide)

/-!
## Keyword-frequency lemmas
-/

/-- Dict lookup with Python's `get(tok, 0)` default. -/
def dictVal (m : List (String × ℚ)) (tok : String) : ℚ :=
  match m.find? (fun p => p.1 = tok) with
  | some p => p.2
  | none => 0

/-- One dict update adds the clicks to exactly the updated token. -/
theorem dictVal_addClicks (m : List (String × ℚ)) (tok : String) (clk : ℚ)
    (tok' : String) :
    dictVal (addClicks m tok clk) tok' =
      dictVal m tok' + (if tok' = tok then clk else 0) := by
  induction m with
  | nil =>
    show dictVal [(tok, clk)] tok' = dictVal [] tok' + _
    unfold dictVal
    by_cases h : tok' = tok
    · rw [if_pos h, List.find?_cons_of_pos _ (by simpa using h.symm)]
      simp
    · rw [if_neg h, List.find?_cons_of_neg _ (by simpa using fun hh => h hh.symm)]
      simp
  | cons e m ih =>
    show dictVal (if e.1 = tok then (e.1, e.2 + clk) :: m else e :: addClicks m tok clk)
        tok' = _
    by_cases he : e.1 = tok
    · rw [if_pos he]
      unfold dictVal
      by_cases h' : tok' = e.1
      · rw [List.find?_cons_of_pos _ (by simpa using h'.symm),
          List.find?_cons_of_pos _ (by simpa using h'.symm)]
        rw [if_pos (h'.trans he)]
      · rw [List.find?_cons_of_neg _ (by simpa using fun hh => h' hh.symm),
          List.find?_cons_of_neg _ (by simpa using fun hh => h' hh.symm)]
        rw [if_neg (fun hh => h' (hh.trans he.symm))]
        simp [dictVal]
    · rw [if_neg he]
      by_cases h' : tok' = e.1
      · unfold dictVal
        rw [List.find?_cons_of_pos _ (by simpa using h'.symm),
          List.find?_cons_of_pos _ (by simpa using h'.symm)]
        rw [if_neg (fun hh => he (h' ▸ hh : e.1 = tok))]
        simp
      · unfold dictVal
        rw [List.find?_cons_of_neg _ (by simpa using fun hh => h' hh.symm),
          List.find?_cons_of_neg _ (by simpa using fun hh => h' hh.symm)]
        exact ih

/-- Folding one row's token list adds `clicks · multiplicity` per token. -/
theorem dictVal_foldTokens (toks : List String) (clk : ℚ) (tok : String) :
    ∀ m : List (String × ℚ),
      dictVal (toks.foldl (fun m t => addClicks m t clk) m) tok =
        dictVal m tok + clk * ((toks.count tok : ℕ) : ℚ) := by
  induction toks with
  | nil => intro m; simp
  | cons t ts ih =>
    intro m
    rw [List.foldl_cons, ih, dictVal_addClicks, List.count_cons]
    by_cases h : t = tok
    · subst h
      rw [if_pos rfl]
      simp only [beq_self_eq_true, if_true]
      push_cast
      ring
    · have hbeq : (t == tok) = false := by simpa using h
      rw [hbeq, if_neg (fun hh => h hh.symm)]
      simp only [Bool.false_eq_true, if_false]
      push_cast
      ring

/-- The accumulated dictionary value of a token is the sum over all rows of
the row's clicks times the token's multiplicity among the row's surviving
tokens. -/
theorem dictVal_keywordDict (rs : List Row) (tok : String) :
    dictVal (keywordDict rs) tok =
      (rs.map (fun r => r.clicks * (((rowTokens r).count tok : ℕ) : ℚ))).sum := by
  suffices h : ∀ m : List (String × ℚ),
      dictVal (rs.foldl (fun m r => (rowTokens r).foldl (fun m t => addClicks m t r.clicks) m) m) tok =
        dictVal m tok +
          (rs.map (fun r => r.clicks * (((rowTokens r).count tok : ℕ) : ℚ))).sum by
    have := h []
    unfold keywordDict
    rw [this]
    simp [dictVal]
  induction rs with
  | nil => intro m; simp
  | cons r rs ih =>
    intro m
    rw [List.foldl_cons, ih, dictVal_foldTokens]
    rw [List.map_cons, List.sum_cons]
    ring

/-- Row with AdName "Summer_Sale_v1" and 10 clicks. -/
def kwRow1 : Row :=
  ⟨some 1, 0, 10, 0, 0, none, some "Summer_Sale_v1", none, none, none, none, none, none, none⟩

/-- Row with AdName "summer-sale-final" and 5 clicks. -/
def kwRow2 : Row :=
  ⟨some 1, 0, 5, 0, 0, none, some "summer-sale-final", none, none, none, none, none, none, none⟩

/-- The spec's keyword example frame. -/
def exampleKw : Frame :=
  ⟨[kwRow1, kwRow2], true, false, true, false, false, false, false, false, false, false⟩

/-- Row with AdName "summer.sale" and 7 clicks: a dot is *not* a token
boundary for the code. -/
def dotRow : Row :=
  ⟨some 1, 0, 7, 0, 0, none, some "summer.sale", none, none, none, none, none, none, none⟩

/-- One-row frame around `dotRow`. -/
def dotKw : Frame :=
  ⟨[dotRow], true, false, true, false, false, false, false, false, false, false⟩

/-- Counterexample to C8 as stated: the code tokenizes only on whitespace,
hyphens and underscores — not on all non-alphanumeric boundaries.  The
AdName "summer.sale" stays a single token containing the non-alphanumeric
character '.', instead of splitting into "summer" and "sale". -/
theorem keyword_tokenization_counterexample :
    adnameKeywordAnalysis dotKw 20 = [("summer.sale", 7)] ∧
    '.' ∈ "summer.sale".data ∧
    tokenize "summer.sale" = ["summer.sale"] := by
  refine ⟨by decide, by decide, by decide⟩

/-- C8 (amended): keyword frequency lower-cases each AdName, tokenizes on
whitespace after turning hyphens and underscores into spaces (not on every
non-alphanumeric boundary), discards stop words (including "v1", "copy",
"final") and tokens shorter than 3 characters, accumulates each row's
click volume onto every surviving token occurrence, and reports the top
`top_n` (default 20) tokens by accumulated clicks in descending order; the
spec's example still holds: "Summer_Sale_v1" (10 clicks) and
"summer-sale-final" (5 clicks) yield "summer" and "sale" with 15 clicks
each and "v1"/"final" excluded. -/
theorem keyword_spec :
    (∀ (r : Row) (tok : String), tok ∈ rowTokens r ↔
      (tok ∈ tokenize (adNameStr r) ∧ ¬ tok ∈ STOPWORDS ∧ tok.length > 2)) ∧
    (∀ (rs : List Row) (tok : String), dictVal (keywordDict rs) tok =
      (rs.map (fun r => r.clicks * (((rowTokens r).count tok : ℕ) : ℚ))).sum) ∧
    (∀ (f : Frame) (topN : ℕ), ¬ (f.hasAdName = true) →
      adnameKeywordAnalysis f topN = []) ∧
    (∀ (f : Frame) (topN : ℕ), (adnameKeywordAnalysis f topN).length ≤ topN) ∧
    (∀ (f : Frame) (topN : ℕ), List.Sorted kwDescRel (adnameKeywordAnalysis f topN)) ∧
    (∀ (f : Frame) (topN : ℕ), ∀ e ∈ adnameKeywordAnalysis f topN,
      e ∈ keywordDict f.rows) ∧
    (∀ (f : Frame) (topN : ℕ), ∀ d ∈ keywordDict f.rows,
      ¬ d ∈ adnameKeywordAnalysis f topN →
      ∀ e ∈ adnameKeywordAnalysis f topN, kwDescRel e d) ∧
    adnameKeywordAnalysis exampleKw 20 = [("summer", 15), ("sale", 15)] := by
  have hform : ∀ (f : Frame) (topN : ℕ),
      adnameKeywordAnalysis f topN = [] ∨
      adnameKeywordAnalysis f topN =
        ((keywordDict f.rows).insertionSort kwDescRel).take topN := by
    intro f topN
    unfold adnameKeywordAnalysis
    split
    · exact Or.inl rfl
    · by_cases hE : (keywordDict f.rows).isEmpty = true
      · rw [if_pos hE]
        exact Or.inl rfl
      · rw [if_neg hE]
        exact Or.inr rfl
  refine ⟨?_, dictVal_keywordDict, ?_, ?_, ?_, ?_, ?_, ?_⟩
  · intro r tok
    unfold rowTokens
    rw [List.mem_filter]
    simp
  · intro f topN h
    unfold adnameKeywordAnalysis
    rw [if_pos h]
  · intro f topN
    rcases hform f topN with h | h <;> rw [h]
    · simp
    · exact List.length_take_le topN _
  · intro f topN
    rcases hform f topN with h | h <;> rw [h]
    · exact List.sorted_nil
    · exact (List.sorted_insertionSort kwDescRel _).sublist (List.take_sublist _ _)
  · intro f topN e he
    rcases hform f topN with h | h <;> rw [h] at he
    · simp at he
    · exact (List.perm_insertionSort kwDescRel _).mem_iff.mp
        (List.mem_of_mem_take he)
  · intro f topN d hd hnotin e he
    rcases hform f topN with h | h <;> rw [h] at hnotin he
    · simp at he
    · have hdsort : d ∈ (keywordDict f.rows).insertionSort kwDescRel :=
        (List.perm_insertionSort kwDescRel _).mem_iff.mpr hd
      have hsplit := List.take_append_drop topN
        ((keywordDict f.rows).insertionSort kwDescRel)
      have hddrop : d ∈ ((keywordDict f.rows).insertionSort kwDescRel).drop topN := by
        rcases List.mem_append.mp (hsplit ▸ hdsort) with h' | h'
        · exact absurd h' hnotin
        · exact h'
      have hsorted := List.sorted_insertionSort kwDescRel (keywordDict f.rows)
      rw [← hsplit] at hsorted
      exact ((List.pairwise_append.mp hsorted).2.2) e he d hddrop
  · have htoks1 : rowTokens kwRow1 = ["summer", "sale"] := by decide
    have htoks2 : rowTokens kwRow2 = ["summer", "sale"] := by decide
    have hkw : keywordDict exampleKw.rows = [("summer", 15), ("sale", 15)] := by
      have h1 : keywordDict exampleKw.rows =
          [("summer", (10 : ℚ) + 5), ("sale", (10 : ℚ) + 5)] := rfl
      rw [h1]
      norm_num
    unfold adnameKeywordAnalysis
    simp only [hkw]
    rw [if_neg (by simp [exampleKw])]
    rw [if_neg (by simp)]
    decide

/-- Witness for the keyword theorem at concrete inputs: a frame without an
`AdName` column yields an empty result, and the example's "summer" token
(15 accumulated clicks) is an entry of the accumulated dictionary. -/
theorem keyword_spec_witness :
    adnameKeywordAnalysis frameC10 20 = [] ∧
    ("summer", (15 : ℚ)) ∈ keywordDict exampleKw.rows := by
  refine ⟨keyword_spec.2.2.1 frameC10 20 (by decide), ?_⟩
  refine keyword_spec.2.2.2.2.2.1 exampleKw 20 ("summer", 15) ?_
  rw [keyword_spec.2.2.2.2.2.2.2]
  exact List.mem_cons_self _ _

/-!
## A/B test lemmas
-/

/-- Membership in the per-campaign aggregation. -/
theorem mem_campaignAggs (f : Frame) (c : String) (k v : ℚ) :
    (c, k, v) ∈ campaignAggs f ↔
      ((∃ r ∈ f.rows, r.campaign = some c) ∧
       k = sumBy (f.rows.filter (fun r => r.campaign = some c)) (·.clicks) ∧
       v = sumBy (f.rows.filter (fun r => r.campaign = some c)) (·.conversions)) := by
  unfold campaignAggs
  rw [List.mem_map]
  constructor
  · rintro ⟨x, hx, hEq⟩
    rw [Prod.mk.injEq] at hEq
    obtain ⟨rfl, hEq2⟩ := hEq
    rw [Prod.mk.injEq] at hEq2
    obtain ⟨rfl, rfl⟩ := hEq2
    rw [List.mem_insertionSort, List.mem_dedup, List.mem_filterMap] at hx
    exact ⟨hx, rfl, rfl⟩
  · rintro ⟨⟨r, hr, hk⟩, rfl, rfl⟩
    refine ⟨c, ?_, rfl⟩
    rw [List.mem_insertionSort, List.mem_dedup, List.mem_filterMap]
    exact ⟨r, hr, hk⟩

/-- The campaign names of the aggregation are pairwise distinct. -/
theorem campaignAggs_keys_nodup (f : Frame) :
    ((campaignAggs f).map Prod.fst).Nodup := by
  unfold campaignAggs
  rw [List.map_map]
  have h : (Prod.fst ∘ fun c : String =>
      (c, sumBy (f.rows.filter (fun r => r.campaign = some c)) (·.clicks),
       sumBy (f.rows.filter (fun r => r.campaign = some c)) (·.conversions))) = id := rfl
  rw [h, List.map_id]
  exact ((List.perm_insertionSort _ _).nodup_iff).mpr (List.nodup_dedup _)

/-- A two-element `take` exposes the first two elements of the list. -/
theorem take_two_eq {α : Type} {l : List α} {x y : α} (h : l.take 2 = [x, y]) :
    ∃ rest, l = x :: y :: rest := by
  cases l with
  | nil => simp at h
  | cons a l' =>
    cases l' with
    | nil => simp at h
    | cons b l'' =>
      have h' : a = x ∧ b = y := by
        have : ([a, b] : List α) = [x, y] := by simpa using h
        simpa using this
      exact ⟨l'', by rw [h'.1, h'.2]⟩

/-- Reduction of the selection stage once the top-2 list is known. -/
theorem abSelect_two (f : Frame) (hC : f.hasCampaign = true)
    (cx : String) (kx vx : ℚ) (cy : String) (ky vy : ℚ)
    (htop : abTop2 f = [(cx, kx, vx), (cy, ky, vy)]) :
    abSelect f = if kx < 30 ∨ ky < 30 then ABSel.insufficientSampleSize
      else ABSel.pair cx kx vx cy ky vy := by
  unfold abSelect
  rw [if_neg (not_not_intro hC), htop]

/-- C2: the A/B test selects the two campaigns with the highest total
clicks; without a `Campaign` column it reports `no_campaign_data`; if
either selected campaign has fewer than 30 clicks it reports
`insufficient_sample_size` (and no winner); otherwise it returns
p₁ = conv₁/clicks₁, p₂ = conv₂/clicks₂,
se = √(p_pool·(1−p_pool)·(1/clicks₁+1/clicks₂)) with
p_pool = (conv₁+conv₂)/(clicks₁+clicks₂), z = (p₁−p₂)/se (0 when se is 0),
two-tailed p-value = 2·(1−Φ(|z|)) with Φ computed from the error function
(not an empirical approximation), confidence = (1−p_value)·100, and a
winner whose observed conversion rate is at least the other's (campaign A
exactly when p₁ > p₂). -/
theorem ab_test_spec :
    (∀ x : ℝ, norm_cdf x = 0.5 * (1 + erf (x / Real.sqrt 2)) ∧
      erf x = (2 / Real.sqrt Real.pi) * ∫ t in (0 : ℝ)..x, Real.exp (-(t ^ 2))) ∧
    (∀ f : Frame, ¬ (f.hasCampaign = true) →
      abTestAnalysis f = ABResult.noCampaignData) ∧
    (∀ (f : Frame) (x y : String × ℚ × ℚ), f.hasCampaign = true →
      abTop2 f = [x, y] → (x.2.1 < 30 ∨ y.2.1 < 30) →
      abTestAnalysis f = ABResult.insufficientSampleSize) ∧
    (∀ (f : Frame) (c1 c2 : String) (k1 v1 k2 v2 : ℚ),
      abSelect f = ABSel.pair c1 k1 v1 c2 k2 v2 →
      (c1, k1, v1) ∈ campaignAggs f ∧
      (c2, k2, v2) ∈ campaignAggs f ∧
      c1 ≠ c2 ∧
      k2 ≤ k1 ∧
      (∀ e ∈ campaignAggs f, e.1 ≠ c1 → e.1 ≠ c2 → e.2.1 ≤ k2) ∧
      (30 : ℚ) ≤ k1 ∧ (30 : ℚ) ≤ k2 ∧
      (∃ se z : ℝ,
        se = Real.sqrt ((((v1 + v2) / (k1 + k2) : ℚ) : ℝ) *
              (1 - (((v1 + v2) / (k1 + k2) : ℚ) : ℝ)) *
              (1 / (k1 : ℝ) + 1 / (k2 : ℝ))) ∧
        z = (if 0 < se then (((v1 / k1 : ℚ) : ℝ) - ((v2 / k2 : ℚ) : ℝ)) / se else 0) ∧
        abTestAnalysis f = ABResult.ok c1 c2 (v1 / k1) (v2 / k2) z
          (2 * (1 - norm_cdf |z|)) ((1 - 2 * (1 - norm_cdf |z|)) * 100)
          (if v2 / k2 < v1 / k1 then c1 else c2)) ∧
      (((if v2 / k2 < v1 / k1 then c1 else c2) = c1 ∧ v2 / k2 ≤ v1 / k1) ∨
       ((if v2 / k2 < v1 / k1 then c1 else c2) = c2 ∧ v1 / k1 ≤ v2 / k2))) := by
  refine ⟨fun x => ⟨rfl, rfl⟩, ?_, ?_, ?_⟩
  · intro f h
    unfold abTestAnalysis abSelect
    rw [if_pos h]
  · intro f x y hC htop hlt
    obtain ⟨cx, kx, vx⟩ := x
    obtain ⟨cy, ky, vy⟩ := y
    unfold abTestAnalysis
    rw [abSelect_two f hC cx kx vx cy ky vy htop, if_pos (by simpa using hlt)]
  · intro f c1 c2 k1 v1 k2 v2 hsel
    have hC : f.hasCampaign = true := by
      by_contra hC
      unfold abSelect at hsel
      rw [if_pos hC] at hsel
      exact ABSel.noConfusion hsel
    have hmain : abTop2 f = [(c1, k1, v1), (c2, k2, v2)] ∧
        ¬ (k1 < 30 ∨ k2 < 30) := by
      unfold abSelect at hsel
      rw [if_neg (not_not_intro hC)] at hsel
      cases htop : abTop2 f with
      | nil => rw [htop] at hsel; exact ABSel.noConfusion hsel
      | cons x rest =>
        cases rest with
        | nil =>
          obtain ⟨cx, kx, vx⟩ := x
          rw [htop] at hsel
          exact ABSel.noConfusion hsel
        | cons y rest2 =>
          cases rest2 with
          | cons z rest3 =>
            obtain ⟨cx, kx, vx⟩ := x
            obtain ⟨cy, ky, vy⟩ := y
            obtain ⟨cz, kz, vz⟩ := z
            rw [htop] at hsel
            exact ABSel.noConfusion hsel
          | nil =>
            obtain ⟨cx, kx, vx⟩ := x
            obtain ⟨cy, ky, vy⟩ := y
            rw [htop] at hsel
            by_cases hlt : kx < 30 ∨ ky < 30
            · rw [show (match [(cx, kx, vx), (cy, ky, vy)] with
                | [(c1, k1, v1), (c2, k2, v2)] =>
                  if k1 < 30 ∨ k2 < 30 then ABSel.insufficientSampleSize
                  else ABSel.pair c1 k1 v1 c2 k2 v2
                | _ => ABSel.notEnoughCampaigns) =
                  (if kx < 30 ∨ ky < 30 then ABSel.insufficientSampleSize
                   else ABSel.pair cx kx vx cy ky vy) from rfl,
                if_pos hlt] at hsel
              exact ABSel.noConfusion hsel
            · rw [show (match [(cx, kx, vx), (cy, ky, vy)] with
                | [(c1, k1, v1), (c2, k2, v2)] =>
                  if k1 < 30 ∨ k2 < 30 then ABSel.insufficientSampleSize
                  else ABSel.pair c1 k1 v1 c2 k2 v2
                | _ => ABSel.notEnoughCampaigns) =
                  (if kx < 30 ∨ ky < 30 then ABSel.insufficientSampleSize
                   else ABSel.pair cx kx vx cy ky vy) from rfl,
                if_neg hlt] at hsel
              obtain ⟨rfl, rfl, rfl, rfl, rfl, rfl⟩ := ABSel.pair.inj hsel
              exact ⟨rfl, hlt⟩
    obtain ⟨htop, hnlt⟩ := hmain
    rw [not_or, not_lt, not_lt] at hnlt
    have hk1 : (30 : ℚ) ≤ k1 := hnlt.1
    have hk2 : (30 : ℚ) ≤ k2 := hnlt.2
    have hk1pos : (0 : ℚ) < k1 := lt_of_lt_of_le (by norm_num) hk1
    have hk2pos : (0 : ℚ) < k2 := lt_of_lt_of_le (by norm_num) hk2
    obtain ⟨rest, hsorted_eq⟩ := take_two_eq htop
    have hperm := List.perm_insertionSort clicksDescRel (campaignAggs f)
    have hsorted := List.sorted_insertionSort clicksDescRel (campaignAggs f)
    rw [hsorted_eq] at hperm hsorted
    rw [List.sorted_cons] at hsorted
    have hsorted2 := hsorted.2
    rw [List.sorted_cons] at hsorted2
    have hmem1 : (c1, k1, v1) ∈ campaignAggs f :=
      hperm.mem_iff.mp (List.mem_cons_self _ _)
    have hmem2 : (c2, k2, v2) ∈ campaignAggs f :=
      hperm.mem_iff.mp (List.mem_cons_of_mem _ (List.mem_cons_self _ _))
    have hnodup : ((campaignAggs f).map Prod.fst).Nodup := campaignAggs_keys_nodup f
    have hnodup2 : (((c1, k1, v1) :: (c2, k2, v2) :: rest).map Prod.fst).Nodup :=
      (hperm.map Prod.fst).nodup_iff.mpr hnodup
    have hne : c1 ≠ c2 := by
      rw [List.map_cons, List.map_cons, List.nodup_cons] at hnodup2
      intro hEq
      exact hnodup2.1 (hEq ▸ List.mem_cons_self _ _)
    refine ⟨hmem1, hmem2, hne, hsorted.1 _ (List.mem_cons_self _ _), ?_, hk1, hk2, ?_, ?_⟩
    · intro e he he1 he2
      have hesort : e ∈ (c1, k1, v1) :: (c2, k2, v2) :: rest := hperm.mem_iff.mpr he
      rcases List.mem_cons.mp hesort with rfl | hesort2
      · exact absurd rfl he1
      rcases List.mem_cons.mp hesort2 with rfl | hesort3
      · exact absurd rfl he2
      exact hsorted2.1 e hesort3
    · refine ⟨_, _, rfl, rfl, ?_⟩
      unfold abTestAnalysis
      rw [hsel]
      simp only [if_pos hk1pos, if_pos hk2pos]
    · by_cases hw : v2 / k2 < v1 / k1
      · exact Or.inl ⟨if_pos hw, le_of_lt hw⟩
      · exact Or.inr ⟨if_neg hw, not_lt.mp hw⟩

/-- Campaign "A": 100 clicks, 20 conversions. -/
def abRowA : Row :=
  ⟨some 1, 0, 100, 0, 20, some "A", none, none, none, none, none, none, none, none⟩

/-- Campaign "B": 100 clicks, 10 conversions. -/
def abRowB : Row :=
  ⟨some 1, 0, 100, 0, 10, some "B", none, none, none, none, none, none, none, none⟩

/-- Two-campaign frame for the A/B test. -/
def abF : Frame :=
  ⟨[abRowA, abRowB], true, true, false, false, false, false, false, false, false, false⟩

/-- Witness for the A/B theorem at a concrete input: with campaigns A
(100 clicks, 20 conversions) and B (100 clicks, 10 conversions) the
selection passes the 30-click floor, both campaigns are the aggregation's
entries, and the winner is campaign A, whose conversion rate 0.2 beats
0.1. -/
theorem ab_test_spec_witness :
    ("A", (100 : ℚ), (20 : ℚ)) ∈ campaignAggs abF ∧
    ("B", (100 : ℚ), (10 : ℚ)) ∈ campaignAggs abF ∧
    "A" ≠ "B" ∧
    (((if (10 : ℚ) / 100 < (20 : ℚ) / 100 then "A" else "B") = "A" ∧
        (10 : ℚ) / 100 ≤ (20 : ℚ) / 100) ∨
     ((if (10 : ℚ) / 100 < (20 : ℚ) / 100 then "A" else "B") = "B" ∧
        (20 : ℚ) / 100 ≤ (10 : ℚ) / 100)) := by
  have hAB : ("A" : String) ≤ "B" := by
    rw [String.le_iff_toList_le]
    decide
  have hsel : abSelect abF = ABSel.pair "A" 100 20 "B" 100 10 := by
    have hagg : campaignAggs abF = [("A", 100, 20), ("B", 100, 10)] := by
      simp [campaignAggs, abF, abRowA, abRowB, sumBy, List.insertionSort,
        List.orderedInsert, hAB]
    have htop : abTop2 abF = [("A", 100, 20), ("B", 100, 10)] := by
      simp [abTop2, hagg, List.insertionSort, List.orderedInsert, clicksDescRel]
    rw [abSelect_two abF rfl "A" 100 20 "B" 100 10 htop]
    norm_num
  have h := ab_test_spec.2.2.2 abF "A" "B" 100 20 100 10 hsel
  exact ⟨h.1, h.2.1, h.2.2.1, h.2.2.2.2.2.2.2.2⟩

end MarketingDashboard
